import Mathlib

/-!
Verification development for the multilingual video annotation viewer
(`src/app.py`).  The viewer's synchronization core is the JavaScript block
embedded in `main` (lines 340-596) together with the Python loaders
(`load_nodes`, `load_causal_graph`).  This file gives a shallow embedding of
that code: strings stay strings, JavaScript numbers obtained from
`parseInt`/`parseFloat` become `Option Int` / `Option ℚ` (with `none` playing
the role of `NaN`/absent), DOM class state becomes an explicit record, and a
JavaScript exception becomes the `Except` error case carrying the DOM state
at the moment of the throw.
-/

/-- Model of the JavaScript whitespace test used by `String.prototype.trim`
and by `parseInt` when skipping leading space (restricted to the ASCII
whitespace characters, which is what the data feeds contain). -/
def jsSpace (c : Char) : Bool :=
  c == ' ' || c == '\t' || c == '\n' || c == '\r' || c == '\x0b' || c == '\x0c'

/-- Model of JavaScript `trim` on a character list: drop whitespace at both
ends. -/
def jsTrimChars (cs : List Char) : List Char :=
  ((cs.dropWhile jsSpace).reverse.dropWhile jsSpace).reverse

/-- Model of JavaScript `String.prototype.trim`. -/
def jsTrimStr (s : String) : String :=
  ⟨jsTrimChars s.data⟩

/-- Accumulate a run of decimal digits into a natural number. -/
def digitsValAux (acc : Nat) : List Char → Nat
  | [] => acc
  | c :: rest => digitsValAux (acc * 10 + (c.toNat - 48)) rest

/-- Numeric value of a digit run. -/
def digitsVal (cs : List Char) : Nat := digitsValAux 0 cs

/-- Leading decimal-digit run of a character list, `none` when there is no
leading digit (the `NaN` outcome of `parseInt`). -/
def leadingDigits (cs : List Char) : Option Nat :=
  let ds := cs.takeWhile Char.isDigit
  if ds.isEmpty then none else some (digitsVal ds)

/-- Model of JavaScript `parseInt(s, 10)` on a character list that has
already had leading whitespace removed: an optional sign followed by a
non-empty digit run; any trailing garbage is ignored; `none` models `NaN`. -/
def jsParseIntChars : List Char → Option Int
  | '-' :: rest => (leadingDigits rest).map (fun n => -(n : Int))
  | '+' :: rest => (leadingDigits rest).map (fun n => (n : Int))
  | cs => (leadingDigits cs).map (fun n => (n : Int))

/-- Model of JavaScript `parseInt(s, 10)` (lines 354-355, 367-368 of
`src/app.py`): skip leading whitespace, then parse an optionally signed
decimal integer; `none` models the `NaN` result. -/
def jsParseInt (s : String) : Option Int :=
  jsParseIntChars (s.data.dropWhile jsSpace)

/-- Splitter for JavaScript `edge.split('->')`, specialised to the
two-character separator `->`: leftmost, non-overlapping occurrences. -/
def splitArrowAux : List Char → List Char → List (List Char)
  | [], acc => [acc.reverse]
  | '-' :: '>' :: rest, acc => acc.reverse :: splitArrowAux rest []
  | c :: rest, acc => splitArrowAux rest (c :: acc)

/-- Model of JavaScript `edge.split('->')` (line 353 / 366 of
`src/app.py`). -/
def jsSplitArrow (s : String) : List String :=
  (splitArrowAux s.data []).map fun l => ⟨l⟩

/-- Model of the destructuring-and-parsing step
`const [sourceStr, targetStr] = edge.split('->'); parseInt(sourceStr.trim());
parseInt(targetStr.trim())` (lines 353-355 / 366-368).  When the split
yields a single piece, `targetStr` is `undefined` and `targetStr.trim()`
throws a `TypeError`; this is the `Except.error` case. -/
def parseEdgeLine (edge : String) : Except Unit (Option Int × Option Int) :=
  match jsSplitArrow edge with
  | [] => .error ()
  | [_] => .error ()
  | s :: t :: _ => .ok (jsParseInt (jsTrimStr s), jsParseInt (jsTrimStr t))

/-- Accumulator recursion for `getDirectPredecessors` (lines 350-361):
`edges.forEach` parsing each line and pushing `source` whenever
`target === nodeId`.  A thrown `TypeError` aborts the whole scan. -/
def getPredsAux (nodeId : Int) (acc : List (Option Int)) :
    List String → Except Unit (List (Option Int))
  | [] => .ok acc
  | e :: rest =>
    match parseEdgeLine e with
    | .error u => .error u
    | .ok (source, target) =>
      getPredsAux nodeId (if target == some nodeId then acc ++ [source] else acc) rest

/-- Model of `getDirectPredecessors(nodeId, edges)` (lines 350-361 of
`src/app.py`). -/
def getDirectPredecessors (nodeId : Int) (edges : List String) :
    Except Unit (List (Option Int)) :=
  getPredsAux nodeId [] edges

/-- Accumulator recursion for `getDirectSuccessors` (lines 363-374):
push `target` whenever `source === nodeId`. -/
def getSuccsAux (nodeId : Int) (acc : List (Option Int)) :
    List String → Except Unit (List (Option Int))
  | [] => .ok acc
  | e :: rest =>
    match parseEdgeLine e with
    | .error u => .error u
    | .ok (source, target) =>
      getSuccsAux nodeId (if source == some nodeId then acc ++ [target] else acc) rest

/-- Model of `getDirectSuccessors(nodeId, edges)` (lines 363-374 of
`src/app.py`). -/
def getDirectSuccessors (nodeId : Int) (edges : List String) :
    Except Unit (List (Option Int)) :=
  getSuccsAux nodeId [] edges

/-- Model of the Python whitespace class matched by the regex escape in
`load_nodes` (ASCII part). -/
def pySpace (c : Char) : Bool :=
  c == ' ' || c == '\t' || c == '\n' || c == '\r' || c == '\x0b' || c == '\x0c'

/-- Character-list core of the node-label stripping performed by
`re.sub(r'^Node \d+:\s*', '', line)` in `load_nodes` (line 59 of
`src/app.py`): an anchored match of `Node `, one or more digits, `:`, then
any (possibly empty) run of whitespace, replaced by the empty string; when
the pattern does not match the line is returned unchanged. -/
def stripNodeHeaderAux (cs : List Char) : List Char :=
  if "Node ".data.isPrefixOf cs then
    let rest := cs.drop 5
    let ds := rest.takeWhile Char.isDigit
    if ds.isEmpty then cs
    else
      match rest.dropWhile Char.isDigit with
      | c :: rest2 => if c = ':' then rest2.dropWhile pySpace else cs
      | [] => cs
  else cs

/-- Model of the per-line label stripping in `load_nodes` (line 59 of
`src/app.py`). -/
def stripNodeHeader (line : String) : String :=
  ⟨stripNodeHeaderAux line.data⟩

/-- Model of the label parsing of `load_nodes`: every line of the node feed
is stripped independently. -/
def parseNodeLabels (rawLines : List String) : List String :=
  rawLines.map stripNodeHeader

/-- Definition following the SPEC's words (not the source), used to compare
the spec's stripping pattern with the code's: the spec says the prefix is
literally `Node <int>: ` — `Node `, digits, a colon and one space.  Returns
`true` when the line starts with that exact pattern. -/
def specHeaderPresent (line : String) : Bool :=
  if "Node ".data.isPrefixOf line.data then
    let rest := line.data.drop 5
    let ds := rest.takeWhile Char.isDigit
    if ds.isEmpty then false
    else
      match rest.dropWhile Char.isDigit with
      | c :: c2 :: _ => c == ':' && c2 == ' '
      | _ => false
  else false

/-- One transcript segment as rendered into the page by
`generate_transcript_html` (lines 81-108 of `src/app.py`): `start`/`stop`
are `some q` exactly when the corresponding `data-start`/`data-end`
attribute is present and `parseFloat` yields the number `q` (absent
attribute or `NaN` are both `none`, matching the JavaScript guards);
`matched` is the normalized `data-matched` attribute string; the segment's
`data-node` id equals its position in the list. -/
structure Segment where
  text : String
  start : Option ℚ
  stop : Option ℚ
  matched : String
deriving DecidableEq, Repr

/-- The four toggleable CSS classes of one sentence element
(`highlight`, `unmatched-highlight`, `predecessor-highlight`,
`successor-highlight`). -/
structure SentenceState where
  highlight : Bool
  unmatchedHighlight : Bool
  predecessorHighlight : Bool
  successorHighlight : Bool
deriving DecidableEq, Repr

/-- A sentence with none of the four highlight classes. -/
def clearedSentence : SentenceState := ⟨false, false, false, false⟩

/-- Kind of a rendered graph node (`predecessor-node`, `successor-node`,
`selected-node`). -/
inductive NodeKind where
  | predecessor
  | successor
  | selected
deriving DecidableEq, Repr

/-- One node element of the rendered graph: its kind class and the text
looked up as `nodes[nodeId]` (`none` when the lookup yields
`undefined`). -/
structure GraphNode where
  kind : NodeKind
  label : Option String
deriving DecidableEq, Repr

/-- One child of the graph's main container: a titled node group or the
`↓` connector element. -/
inductive RenderItem where
  | group : String → List GraphNode → RenderItem
  | arrow : RenderItem
deriving DecidableEq, Repr

/-- The mutable visual state of the page: the class state of each sentence
element (in document order, parallel to the segment list) and the children
of the graph container (`[]` = cleared / empty `innerHTML`). -/
structure ViewState where
  classes : List SentenceState
  graph : List RenderItem
deriving DecidableEq, Repr

/-- The static data the embedded script closes over (lines 342-344 of
`src/app.py`): the causal-mode flag, the raw edge lines, the node label
array and the transcript segments.  The graph container element exists in
the page exactly when `useCausalRelations` is true (`graph_section_html`,
lines 185-194). -/
structure Config where
  useCausalRelations : Bool
  causalEdges : List String
  nodes : List String
  segments : List Segment
deriving DecidableEq, Repr

/-- `mapIdxAux f i l` maps `f` over `l` passing the element positions
starting at `i`; used to model loops over the sentence `NodeList` that read
each element's `data-node` id. -/
def mapIdxAux (f : Nat → SentenceState → SentenceState) :
    Nat → List SentenceState → List SentenceState
  | _, [] => []
  | i, s :: rest => f i s :: mapIdxAux f (i + 1) rest

/-- Whether the segment at position `i` carries `data-matched="yes"`
(the JavaScript test `sentence.dataset.matched === 'yes'`). -/
def segMatched (segs : List Segment) (i : Nat) : Bool :=
  match segs.get? i with
  | some seg => seg.matched == "yes"
  | none => false

/-- Per-sentence update of `highlightSentence`: the selected sentence gains
`highlight` or `unmatched-highlight`, every other sentence is left as is
(they were all cleared just before). -/
def selMark (segs : List Segment) (i : Nat) : Nat → SentenceState → SentenceState :=
  fun j s =>
    if j = i then
      if segMatched segs i then { s with highlight := true }
      else { s with unmatchedHighlight := true }
    else s

/-- Model of `highlightSentence(sentence)` (lines 376-385 of `src/app.py`)
applied to the sentence at position `i`: remove all four highlight classes
from every sentence, then add `highlight` or `unmatched-highlight` to
sentence `i` according to its `data-matched` attribute. -/
def highlightSentence (segs : List Segment) (i : Nat) (st : ViewState) : ViewState :=
  { st with classes :=
      mapIdxAux (selMark segs i) 0 (st.classes.map fun _ => clearedSentence) }

/-- Per-sentence update of `highlightCausalSentences`: skip a selected
sentence, otherwise clear the two causal classes and re-add one according
to membership of the sentence's `data-node` id in the id lists. -/
def causalMark (predIds succIds : List (Option Int)) :
    Nat → SentenceState → SentenceState :=
  fun j s =>
    if s.highlight || s.unmatchedHighlight then s
    else
      let s2 := { s with predecessorHighlight := false, successorHighlight := false }
      if predIds.contains (some (j : Int)) then { s2 with predecessorHighlight := true }
      else if succIds.contains (some (j : Int)) then { s2 with successorHighlight := true }
      else s2

/-- Model of `highlightCausalSentences(predecessorIds, successorIds)`
(lines 387-401 of `src/app.py`): skip the selected sentence, otherwise
clear the two causal classes and re-add one according to membership of the
sentence's `data-node` id in the id lists. -/
def highlightCausalSentences (predIds succIds : List (Option Int))
    (st : ViewState) : ViewState :=
  { st with classes := mapIdxAux (causalMark predIds succIds) 0 st.classes }

/-- Model of `clearCausalHighlights()` (lines 403-407 of `src/app.py`). -/
def clearCausalHighlights (st : ViewState) : ViewState :=
  { st with classes :=
      st.classes.map fun s =>
        { s with predecessorHighlight := false, successorHighlight := false } }

/-- Lookup `nodes[nodeId]` as JavaScript array indexing: `undefined`
(`none`) for `NaN`, negative, or out-of-range ids. -/
def nodeLabel (nodes : List String) (id : Option Int) : Option String :=
  match id with
  | none => none
  | some i => if i < 0 then none else nodes.get? i.toNat

/-- The render plan built by the body of `updateGraph` (lines 413-501 of
`src/app.py`): an optional Predecessors group followed by a `↓` connector,
the always-present Current Event group with the single selected node, and
an optional `↓` connector followed by a Successors group; a group is
emitted only when its id list is non-empty, and nodes appear in the order
of the id list. -/
def updateGraphPlan (sel : Int) (preds succs : List (Option Int))
    (nodes : List String) : List RenderItem :=
  (if preds.isEmpty then []
   else
     [RenderItem.group "Predecessors"
        (preds.map fun id => ⟨NodeKind.predecessor, nodeLabel nodes id⟩),
      RenderItem.arrow])
  ++ [RenderItem.group "Current Event" [⟨NodeKind.selected, nodeLabel nodes (some sel)⟩]]
  ++ (if succs.isEmpty then []
      else
        [RenderItem.arrow,
         RenderItem.group "Successors"
           (succs.map fun id => ⟨NodeKind.successor, nodeLabel nodes id⟩)])

/-- Model of the full `updateGraph` call (lines 409-502 of `src/app.py`),
including the early return when causal mode is off — in that case the graph
container element does not exist (`graphContainer` is `null`) and nothing
changes. -/
def updateGraphRun (useCausal : Bool) (sel : Int) (preds succs : List (Option Int))
    (nodes : List String) (st : ViewState) : ViewState :=
  if useCausal then { st with graph := updateGraphPlan sel preds succs nodes } else st

/-- Model of `if (graphContainer) graphContainer.innerHTML = ''`: the
container exists exactly when causal mode is on. -/
def clearGraphIfPresent (useCausal : Bool) (st : ViewState) : ViewState :=
  if useCausal then { st with graph := [] } else st

/-- The causal block shared verbatim by the click listener (lines 517-535)
and the time-sync handler (lines 555-573) of `src/app.py`, run for the
selected sentence at position `i`: when causal mode is on and the edge list
is non-empty, a matched sentence triggers the predecessor/successor scans,
the causal highlighting and the graph redraw, while an unmatched one clears
the causal highlights and empties the graph; with causal mode off or no
edges the same clearing happens.  A `TypeError` thrown by the edge scans
surfaces as `Except.error` carrying the DOM state at the throw. -/
def causalBlock (cfg : Config) (i : Nat) (st : ViewState) :
    Except ViewState ViewState :=
  if cfg.useCausalRelations && !cfg.causalEdges.isEmpty then
    if segMatched cfg.segments i then
      match getDirectPredecessors (i : Int) cfg.causalEdges with
      | .error _ => .error st
      | .ok preds =>
        match getDirectSuccessors (i : Int) cfg.causalEdges with
        | .error _ => .error st
        | .ok succs =>
          .ok (updateGraphRun cfg.useCausalRelations i preds succs cfg.nodes
                (highlightCausalSentences preds succs st))
    else .ok (clearGraphIfPresent cfg.useCausalRelations (clearCausalHighlights st))
  else .ok (clearGraphIfPresent cfg.useCausalRelations (clearCausalHighlights st))

/-- State change performed for one sentence found active by the time-sync
loop (lines 550-573 of `src/app.py`): `highlightSentence` followed by the
causal block. -/
def applyMatch (cfg : Config) (i : Nat) (st : ViewState) :
    Except ViewState ViewState :=
  causalBlock cfg i (highlightSentence cfg.segments i st)

/-- Model of the click listener on sentence `i` (lines 504-537 of
`src/app.py`): highlight the clicked sentence, run the causal block, and
issue a seek-and-play command at the segment's parsed `data-start` time
when that attribute is present and numeric. -/
def clickSentence (cfg : Config) (i : Nat) (st : ViewState) :
    Except ViewState (ViewState × Option ℚ) :=
  let seekTarget :=
    match cfg.segments.get? i with
    | some seg => seg.start
    | none => none
  match applyMatch cfg i st with
  | .error s => .error s
  | .ok s => .ok (s, seekTarget)

/-- Whether a sentence is active at playback time `t` — the guard of lines
548-549 of `src/app.py`: both timing attributes present and numeric, and
`start <= currentTime < end`. -/
def isActive (seg : Segment) (t : ℚ) : Bool :=
  match seg.start, seg.stop with
  | some s, some e => decide (s ≤ t) && decide (t < e)
  | _, _ => false

/-- The `sentences.forEach` loop of `checkAndHighlightCurrentSentence`
(lines 543-576 of `src/app.py`), processing the segments from position `i`
while threading the `matchedFound` flag and the DOM state; every active
sentence's match handler runs, so a later active sentence overwrites the
effect of an earlier one. -/
def runLoop (cfg : Config) (t : ℚ) :
    Nat → List Segment → Bool × ViewState → Except ViewState (Bool × ViewState)
  | _, [], acc => .ok acc
  | i, seg :: rest, (found, st) =>
    if isActive seg t then
      match applyMatch cfg i st with
      | .error s => .error s
      | .ok s => runLoop cfg t (i + 1) rest (true, s)
    else runLoop cfg t (i + 1) rest (found, st)

/-- The full reset performed when no sentence matches the current time
(lines 578-587 of `src/app.py`): remove all four highlight classes from
every sentence, run `clearCausalHighlights`, and clear the graph container
when it exists. -/
def resetAll (cfg : Config) (st : ViewState) : ViewState :=
  clearGraphIfPresent cfg.useCausalRelations
    (clearCausalHighlights { st with classes := st.classes.map fun _ => clearedSentence })

/-- Model of `checkAndHighlightCurrentSentence()` (lines 539-588 of
`src/app.py`), the handler installed on both the `timeupdate` and the
`seeked` events (lines 590-595). -/
def checkAndHighlightCurrentSentence (cfg : Config) (t : ℚ) (st : ViewState) :
    Except ViewState ViewState :=
  match runLoop cfg t 0 cfg.segments (false, st) with
  | .error s => .error s
  | .ok (found, s) => if found then .ok s else .ok (resetAll cfg s)

/-- Accumulator recursion mirroring how the time-sync loop lets each active
sentence overwrite the previous selection: the resulting index is the last
active position, if any. -/
def lastActiveAux (t : ℚ) : Nat → List Segment → Option Nat → Option Nat
  | _, [], acc => acc
  | i, seg :: rest, acc =>
    lastActiveAux t (i + 1) rest (if isActive seg t then some i else acc)

/-- The segment index the time-sync pass of `src/app.py` ends up selecting:
derived from the loop of lines 543-576, where every active sentence's
handler overwrites the previous one, so the final selection is the last
active segment in document order (`none` when no segment is active). -/
def resolveActiveSegment (segs : List Segment) (t : ℚ) : Option Nat :=
  lastActiveAux t 0 segs none

/-- The state a handler leaves in the DOM, whether it ran to completion or
was aborted by an exception. -/
def stateAfter : Except ViewState ViewState → ViewState
  | .ok s => s
  | .error s => s

/-- The state the click handler leaves in the DOM (ignoring the seek
command), whether or not it was aborted by an exception. -/
def clickState : Except ViewState (ViewState × Option ℚ) → ViewState
  | .ok (s, _) => s
  | .error s => s

/-- At most one sentence carries a selection class (`highlight` or
`unmatched-highlight`). -/
def atMostOneSelected (st : ViewState) : Prop :=
  ∀ j k sj sk, st.classes.get? j = some sj → st.classes.get? k = some sk →
    (sj.highlight || sj.unmatchedHighlight) = true →
    (sk.highlight || sk.unmatchedHighlight) = true → j = k

/-- Every edge line splits into at least two pieces around `->`, so the
scans of `getDirectPredecessors`/`getDirectSuccessors` never throw. -/
def edgesWF (cfg : Config) : Prop :=
  ∀ e ∈ cfg.causalEdges, 2 ≤ (jsSplitArrow e).length

instance (cfg : Config) : Decidable (edgesWF cfg) := by
  unfold edgesWF; infer_instance

/-- Concrete unmatched segment timed 0-10, used in example statements. -/
def segA : Segment := ⟨"a", some 0, some 10, "no"⟩

/-- Concrete unmatched segment timed 0-10 overlapping `segA`. -/
def segB : Segment := ⟨"b", some 0, some 10, "no"⟩

/-- Concrete matched segment timed 0-2. -/
def segM : Segment := ⟨"m", some 0, some 2, "yes"⟩

/-- Concrete unmatched segment timed 2-4. -/
def segU : Segment := ⟨"u", some 2, some 4, "no"⟩

/-- Concrete matched segment timed 4-6. -/
def segN : Segment := ⟨"n", some 4, some 6, "yes"⟩

/-- Concrete causal-mode configuration with edges `0 -> 1` and `0 -> 2`. -/
def cfgDemo : Config :=
  ⟨true, ["0 -> 1", "0 -> 2"], ["n0", "n1", "n2"], [segM, segU, segN]⟩

/-- Concrete configuration with causal mode off and two overlapping
segments. -/
def cfgPlain : Config := ⟨false, [], [], [segA, segB]⟩

/-- Fully cleared two-sentence view state. -/
def stTwo : ViewState := ⟨[clearedSentence, clearedSentence], []⟩

/-- Fully cleared three-sentence view state. -/
def stThree : ViewState := ⟨[clearedSentence, clearedSentence, clearedSentence], []⟩

/-- A three-sentence view state with stale highlight classes and a stale
graph, used to exercise the full-reset behaviour. -/
def stMessy : ViewState :=
  ⟨[⟨true, false, true, false⟩, ⟨false, true, false, true⟩, ⟨false, false, true, true⟩],
   [RenderItem.arrow]⟩

/-- Concrete causal-mode configuration whose edge feed contains a line
without the `->` separator. -/
def cfgBad : Config := ⟨true, ["not an edge"], [], [segM]⟩

/-- Fully cleared single-sentence view state. -/
def stOne : ViewState := ⟨[clearedSentence], []⟩

theorem mapIdxAux_length (f : Nat → SentenceState → SentenceState) :
    ∀ (l : List SentenceState) (i : Nat), (mapIdxAux f i l).length = l.length := by
  intro l
  induction l with
  | nil => intro i; rfl
  | cons s rest ih => intro i; simp [mapIdxAux, ih]

theorem mapIdxAux_get? (f : Nat → SentenceState → SentenceState) :
    ∀ (l : List SentenceState) (i j : Nat),
      (mapIdxAux f i l).get? j = (l.get? j).map (f (i + j)) := by
  intro l
  induction l with
  | nil => intro i j; cases j <;> rfl
  | cons s rest ih =>
    intro i j
    cases j with
    | zero => rfl
    | succ j' =>
      show (mapIdxAux f (i + 1) rest).get? j' = ((rest).get? j').map (f (i + (j' + 1)))
      rw [ih (i + 1) j']
      have h : i + 1 + j' = i + (j' + 1) := by omega
      rw [h]

/-- Auxiliary combinator: the first option when present, otherwise the
second; mirrors how `lastActiveAux` threads its accumulator. -/
def optOr (x y : Option Nat) : Option Nat :=
  match x with
  | some j => some j
  | none => y

theorem lastActiveAux_acc (t : ℚ) :
    ∀ (rest : List Segment) (k : Nat) (acc : Option Nat),
      lastActiveAux t k rest acc = optOr (lastActiveAux t k rest none) acc := by
  intro rest
  induction rest with
  | nil => intro k acc; cases acc <;> rfl
  | cons seg r ih =>
    intro k acc
    simp only [lastActiveAux]
    rw [ih, ih (k + 1) (if isActive seg t = true then some k else none)]
    cases h : lastActiveAux t (k + 1) r none <;> cases hA : isActive seg t <;>
      simp [optOr, hA]

theorem lastActiveAux_none_iff (t : ℚ) :
    ∀ (rest : List Segment) (k : Nat),
      lastActiveAux t k rest none = none ↔
        ∀ m seg, rest.get? m = some seg → isActive seg t = false := by
  intro rest
  induction rest with
  | nil => intro k; simp [lastActiveAux]
  | cons seg r ih =>
    intro k
    simp only [lastActiveAux]
    rw [lastActiveAux_acc]
    cases hor : lastActiveAux t (k + 1) r none with
    | some j =>
      constructor
      · intro h
        cases hA : isActive seg t <;> simp [optOr, hA] at h
      · intro h
        have hn : lastActiveAux t (k + 1) r none = none :=
          (ih (k + 1)).mpr fun m sg hm => h (m + 1) sg hm
        rw [hor] at hn
        exact Option.noConfusion hn
    | none =>
      constructor
      · intro h m sg hm
        cases hA : isActive seg t with
        | false =>
          cases m with
          | zero =>
            have hs : seg = sg := by simpa using hm
            rw [← hs]
            exact hA
          | succ m' => exact (ih (k + 1)).mp hor m' sg hm
        | true => simp [optOr, hA] at h
      · intro h
        have hA := h 0 seg rfl
        simp [optOr, hA]

/-- Whether position `m` of the list holds a segment active at `t`. -/
def activeIdx (l : List Segment) (t : ℚ) (m : Nat) : Prop :=
  ∃ seg, l.get? m = some seg ∧ isActive seg t = true

theorem lastActiveAux_some_iff (t : ℚ) :
    ∀ (rest : List Segment) (k j : Nat),
      lastActiveAux t k rest none = some j ↔
        ∃ m, j = k + m ∧ activeIdx rest t m ∧
          ∀ m', m < m' → ¬ activeIdx rest t m' := by
  intro rest
  induction rest with
  | nil =>
    intro k j
    simp only [lastActiveAux]
    constructor
    · intro h; exact Option.noConfusion h
    · rintro ⟨m, -, ⟨seg, hm, -⟩, -⟩
      simp at hm
  | cons seg r ih =>
    intro k j
    simp only [lastActiveAux]
    rw [lastActiveAux_acc]
    cases hor : lastActiveAux t (k + 1) r none with
    | some j' =>
      simp only [optOr]
      constructor
      · intro h
        have hj' : j' = j := by simpa using h
        subst hj'
        obtain ⟨m, hj, hact, hafter⟩ := (ih (k + 1) j').mp hor
        refine ⟨m + 1, by omega, ?_, ?_⟩
        · obtain ⟨sg, hm, hA⟩ := hact
          exact ⟨sg, hm, hA⟩
        · intro m' hm' hact'
          cases m' with
          | zero => omega
          | succ m'' =>
            obtain ⟨sg, hm2, hA2⟩ := hact'
            exact hafter m'' (by omega) ⟨sg, hm2, hA2⟩
      · rintro ⟨m, hj, hact, hafter⟩
        cases m with
        | zero =>
          exfalso
          have hn : lastActiveAux t (k + 1) r none = none := by
            rw [lastActiveAux_none_iff]
            intro m' sg' hm'
            by_contra hcon
            rw [Bool.not_eq_false] at hcon
            exact hafter (m' + 1) (by omega) ⟨sg', hm', hcon⟩
          rw [hor] at hn
          exact Option.noConfusion hn
        | succ m'' =>
          have hr : lastActiveAux t (k + 1) r none = some ((k + 1) + m'') := by
            rw [ih]
            refine ⟨m'', rfl, ?_, ?_⟩
            · obtain ⟨sg, hm2, hA2⟩ := hact
              exact ⟨sg, hm2, hA2⟩
            · intro m' hm' hact'
              obtain ⟨sg, hm2, hA2⟩ := hact'
              exact hafter (m' + 1) (by omega) ⟨sg, hm2, hA2⟩
          rw [hor] at hr
          have : j' = (k + 1) + m'' := by simpa using hr
          subst this
          simp
          omega
    | none =>
      simp only [optOr]
      constructor
      · intro h
        cases hA : isActive seg t with
        | false => rw [hA] at h; simp at h
        | true =>
          rw [hA] at h
          simp at h
          refine ⟨0, by omega, ⟨seg, rfl, hA⟩, ?_⟩
          intro m' hm' hact'
          cases m' with
          | zero => omega
          | succ m'' =>
            obtain ⟨sg, hm2, hA2⟩ := hact'
            have hf := (lastActiveAux_none_iff t r (k + 1)).mp hor m'' sg hm2
            rw [hf] at hA2
            exact Bool.noConfusion hA2
      · rintro ⟨m, hj, hact, hafter⟩
        cases m with
        | zero =>
          obtain ⟨sg, hm, hA⟩ := hact
          have hs : seg = sg := by simpa using hm
          rw [hs, hA]
          simp
          omega
        | succ m'' =>
          exfalso
          obtain ⟨sg, hm2, hA2⟩ := hact
          have hf := (lastActiveAux_none_iff t r (k + 1)).mp hor m'' sg hm2
          rw [hf] at hA2
          exact Bool.noConfusion hA2

theorem resolveActiveSegment_some_iff (segs : List Segment) (t : ℚ) (j : Nat) :
    resolveActiveSegment segs t = some j ↔
      activeIdx segs t j ∧ ∀ k, j < k → ¬ activeIdx segs t k := by
  show lastActiveAux t 0 segs none = some j ↔ _
  rw [lastActiveAux_some_iff]
  constructor
  · rintro ⟨m, hj, hact, hafter⟩
    have hm : j = m := by omega
    subst hm
    exact ⟨hact, hafter⟩
  · rintro ⟨hact, hafter⟩
    exact ⟨j, by omega, hact, hafter⟩

theorem resolveActiveSegment_none_iff (segs : List Segment) (t : ℚ) :
    resolveActiveSegment segs t = none ↔
      ∀ m seg, segs.get? m = some seg → isActive seg t = false :=
  lastActiveAux_none_iff t segs 0

theorem parseEdgeLine_ok_iff (e : String) :
    (∃ p, parseEdgeLine e = .ok p) ↔ 2 ≤ (jsSplitArrow e).length := by
  unfold parseEdgeLine
  cases h : jsSplitArrow e with
  | nil => simp
  | cons a rest =>
    cases rest with
    | nil => simp
    | cons b rest2 =>
      constructor
      · intro _
        simp only [List.length_cons]
        omega
      · intro _
        exact ⟨_, rfl⟩

theorem getPredsAux_mem (nodeId : Int) :
    ∀ (edges : List String) (acc l : List (Option Int)),
      getPredsAux nodeId acc edges = .ok l →
      ∀ x, x ∈ l ↔ x ∈ acc ∨ ∃ e ∈ edges, parseEdgeLine e = .ok (x, some nodeId) := by
  intro edges
  induction edges with
  | nil =>
    intro acc l h x
    have hl : acc = l := by simpa [getPredsAux] using h
    subst hl
    simp
  | cons e rest ih =>
    intro acc l h x
    simp only [getPredsAux] at h
    cases hp : parseEdgeLine e with
    | error u => rw [hp] at h; exact Except.noConfusion h
    | ok p =>
      obtain ⟨src, tgt⟩ := p
      rw [hp] at h
      rw [ih _ l h x]
      constructor
      · rintro (hacc | hrest)
        · by_cases htgt : tgt = some nodeId
          · subst htgt
            simp only [beq_self_eq_true, if_true] at hacc
            rcases List.mem_append.mp hacc with h1 | h2
            · exact Or.inl h1
            · have hx : x = src := by simpa using h2
              subst hx
              exact Or.inr ⟨e, List.mem_cons_self e rest, hp⟩
          · have hb : (tgt == some nodeId) = false := by
              simpa using htgt
            rw [hb] at hacc
            simp only [Bool.false_eq_true, if_false] at hacc
            exact Or.inl hacc
        · obtain ⟨e', he', hpe⟩ := hrest
          exact Or.inr ⟨e', List.mem_cons_of_mem e he', hpe⟩
      · rintro (hacc | ⟨e', he', hpe⟩)
        · left
          cases hb : (tgt == some nodeId) with
          | true =>
            simp only [if_true]
            exact List.mem_append_left _ hacc
          | false =>
            simp only [Bool.false_eq_true, if_false]
            exact hacc
        · rcases List.mem_cons.mp he' with heq | hmem'
          · subst heq
            rw [hp] at hpe
            have hinj := Except.ok.inj hpe
            have hsrc : src = x := congrArg Prod.fst hinj
            have htgt : tgt = some nodeId := congrArg Prod.snd hinj
            subst hsrc
            subst htgt
            left
            simp only [beq_self_eq_true, if_true]
            exact List.mem_append_right _ (List.mem_singleton.mpr rfl)
          · exact Or.inr ⟨e', hmem', hpe⟩

theorem getSuccsAux_mem (nodeId : Int) :
    ∀ (edges : List String) (acc l : List (Option Int)),
      getSuccsAux nodeId acc edges = .ok l →
      ∀ x, x ∈ l ↔ x ∈ acc ∨ ∃ e ∈ edges, parseEdgeLine e = .ok (some nodeId, x) := by
  intro edges
  induction edges with
  | nil =>
    intro acc l h x
    have hl : acc = l := by simpa [getSuccsAux] using h
    subst hl
    simp
  | cons e rest ih =>
    intro acc l h x
    simp only [getSuccsAux] at h
    cases hp : parseEdgeLine e with
    | error u => rw [hp] at h; exact Except.noConfusion h
    | ok p =>
      obtain ⟨src, tgt⟩ := p
      rw [hp] at h
      rw [ih _ l h x]
      constructor
      · rintro (hacc | hrest)
        · by_cases hsrc : src = some nodeId
          · subst hsrc
            simp only [beq_self_eq_true, if_true] at hacc
            rcases List.mem_append.mp hacc with h1 | h2
            · exact Or.inl h1
            · have hx : x = tgt := by simpa using h2
              subst hx
              exact Or.inr ⟨e, List.mem_cons_self e rest, hp⟩
          · have hb : (src == some nodeId) = false := by
              simpa using hsrc
            rw [hb] at hacc
            simp only [Bool.false_eq_true, if_false] at hacc
            exact Or.inl hacc
        · obtain ⟨e', he', hpe⟩ := hrest
          exact Or.inr ⟨e', List.mem_cons_of_mem e he', hpe⟩
      · rintro (hacc | ⟨e', he', hpe⟩)
        · left
          cases hb : (src == some nodeId) with
          | true =>
            simp only [if_true]
            exact List.mem_append_left _ hacc
          | false =>
            simp only [Bool.false_eq_true, if_false]
            exact hacc
        · rcases List.mem_cons.mp he' with heq | hmem'
          · subst heq
            rw [hp] at hpe
            have hinj := Except.ok.inj hpe
            have hsrc : src = some nodeId := congrArg Prod.fst hinj
            have htgt : tgt = x := congrArg Prod.snd hinj
            subst hsrc
            subst htgt
            left
            simp only [beq_self_eq_true, if_true]
            exact List.mem_append_right _ (List.mem_singleton.mpr rfl)
          · exact Or.inr ⟨e', hmem', hpe⟩

theorem getPredsAux_ok (nodeId : Int) :
    ∀ (edges : List String) (acc : List (Option Int)),
      (∀ e ∈ edges, 2 ≤ (jsSplitArrow e).length) →
      ∃ l, getPredsAux nodeId acc edges = .ok l := by
  intro edges
  induction edges with
  | nil => intro acc _; exact ⟨acc, rfl⟩
  | cons e rest ih =>
    intro acc hwf
    have he : 2 ≤ (jsSplitArrow e).length := hwf e (List.mem_cons_self e rest)
    obtain ⟨p, hp⟩ := (parseEdgeLine_ok_iff e).mpr he
    obtain ⟨src, tgt⟩ := p
    obtain ⟨l, hl⟩ :=
      ih (if tgt == some nodeId then acc ++ [src] else acc)
        (fun e' he' => hwf e' (List.mem_cons_of_mem e he'))
    exact ⟨l, by simp only [getPredsAux, hp]; exact hl⟩

theorem getSuccsAux_ok (nodeId : Int) :
    ∀ (edges : List String) (acc : List (Option Int)),
      (∀ e ∈ edges, 2 ≤ (jsSplitArrow e).length) →
      ∃ l, getSuccsAux nodeId acc edges = .ok l := by
  intro edges
  induction edges with
  | nil => intro acc _; exact ⟨acc, rfl⟩
  | cons e rest ih =>
    intro acc hwf
    have he : 2 ≤ (jsSplitArrow e).length := hwf e (List.mem_cons_self e rest)
    obtain ⟨p, hp⟩ := (parseEdgeLine_ok_iff e).mpr he
    obtain ⟨src, tgt⟩ := p
    obtain ⟨l, hl⟩ :=
      ih (if src == some nodeId then acc ++ [tgt] else acc)
        (fun e' he' => hwf e' (List.mem_cons_of_mem e he'))
    exact ⟨l, by simp only [getSuccsAux, hp]; exact hl⟩

theorem highlightSentence_graph (segs : List Segment) (i : Nat) (st : ViewState) :
    (highlightSentence segs i st).graph = st.graph := rfl

theorem highlightSentence_length (segs : List Segment) (i : Nat) (st : ViewState) :
    (highlightSentence segs i st).classes.length = st.classes.length := by
  show (mapIdxAux _ 0 (st.classes.map fun _ => clearedSentence)).length = _
  rw [mapIdxAux_length, List.length_map]

theorem highlightSentence_classes_of_len (segs : List Segment) (i : Nat)
    (st₁ st₂ : ViewState) (h : st₁.classes.length = st₂.classes.length) :
    (highlightSentence segs i st₁).classes = (highlightSentence segs i st₂).classes := by
  show mapIdxAux _ 0 (st₁.classes.map fun _ => clearedSentence) =
       mapIdxAux _ 0 (st₂.classes.map fun _ => clearedSentence)
  rw [List.map_const', List.map_const', h]

theorem highlightCausalSentences_classes (preds succs : List (Option Int))
    (st₁ st₂ : ViewState) (h : st₁.classes = st₂.classes) :
    (highlightCausalSentences preds succs st₁).classes =
      (highlightCausalSentences preds succs st₂).classes := by
  show mapIdxAux _ 0 st₁.classes = mapIdxAux _ 0 st₂.classes
  rw [h]

theorem clearCausalHighlights_classes (st₁ st₂ : ViewState)
    (h : st₁.classes = st₂.classes) :
    (clearCausalHighlights st₁).classes = (clearCausalHighlights st₂).classes := by
  show st₁.classes.map _ = st₂.classes.map _
  rw [h]

theorem applyMatch_err_indep (cfg : Config) (i : Nat) (st₁ st₂ : ViewState)
    (s₁ : ViewState) (h₁ : applyMatch cfg i st₁ = .ok s₁) :
    ∃ s₂, applyMatch cfg i st₂ = .ok s₂ := by
  unfold applyMatch causalBlock at h₁ ⊢
  by_cases hc1 : (cfg.useCausalRelations && !cfg.causalEdges.isEmpty) = true
  · rw [if_pos hc1] at h₁ ⊢
    by_cases hm : segMatched cfg.segments i = true
    · rw [if_pos hm] at h₁ ⊢
      cases hp : getDirectPredecessors (i : Int) cfg.causalEdges with
      | error u => rw [hp] at h₁; exact Except.noConfusion h₁
      | ok preds =>
        rw [hp] at h₁
        cases hs : getDirectSuccessors (i : Int) cfg.causalEdges with
        | error u => rw [hs] at h₁; exact Except.noConfusion h₁
        | ok succs =>
          exact ⟨_, rfl⟩
    · rw [if_neg hm] at h₁ ⊢
      exact ⟨_, rfl⟩
  · rw [if_neg hc1] at h₁ ⊢
    exact ⟨_, rfl⟩

theorem applyMatch_ok_length (cfg : Config) (i : Nat) (st s : ViewState)
    (h : applyMatch cfg i st = .ok s) :
    s.classes.length = st.classes.length := by
  unfold applyMatch causalBlock at h
  by_cases hc1 : (cfg.useCausalRelations && !cfg.causalEdges.isEmpty) = true
  · rw [if_pos hc1] at h
    by_cases hm : segMatched cfg.segments i = true
    · rw [if_pos hm] at h
      cases hp : getDirectPredecessors (i : Int) cfg.causalEdges with
      | error u => rw [hp] at h; exact Except.noConfusion h
      | ok preds =>
        rw [hp] at h
        cases hs : getDirectSuccessors (i : Int) cfg.causalEdges with
        | error u => rw [hs] at h; exact Except.noConfusion h
        | ok succs =>
          rw [hs] at h
          have hs2 := Except.ok.inj h
          subst hs2
          show ((updateGraphRun _ _ _ _ _ _).classes).length = _
          unfold updateGraphRun
          by_cases hu : cfg.useCausalRelations = true
          · rw [if_pos hu]
            show (mapIdxAux _ 0 (highlightSentence cfg.segments i st).classes).length = _
            rw [mapIdxAux_length, highlightSentence_length]
          · rw [if_neg hu]
            show (mapIdxAux _ 0 (highlightSentence cfg.segments i st).classes).length = _
            rw [mapIdxAux_length, highlightSentence_length]
    · rw [if_neg hm] at h
      have hs2 := Except.ok.inj h
      subst hs2
      unfold clearGraphIfPresent
      by_cases hu : cfg.useCausalRelations = true
      · rw [if_pos hu]
        show ((highlightSentence cfg.segments i st).classes.map _).length = _
        rw [List.length_map, highlightSentence_length]
      · rw [if_neg hu]
        show ((highlightSentence cfg.segments i st).classes.map _).length = _
        rw [List.length_map, highlightSentence_length]
  · rw [if_neg hc1] at h
    have hs2 := Except.ok.inj h
    subst hs2
    unfold clearGraphIfPresent
    by_cases hu : cfg.useCausalRelations = true
    · rw [if_pos hu]
      show ((highlightSentence cfg.segments i st).classes.map _).length = _
      rw [List.length_map, highlightSentence_length]
    · rw [if_neg hu]
      show ((highlightSentence cfg.segments i st).classes.map _).length = _
      rw [List.length_map, highlightSentence_length]

theorem applyMatch_graph_off (cfg : Config) (i : Nat) (st s : ViewState)
    (hu : cfg.useCausalRelations = false) (h : applyMatch cfg i st = .ok s) :
    s.graph = st.graph := by
  unfold applyMatch causalBlock at h
  have hc1 : (cfg.useCausalRelations && !cfg.causalEdges.isEmpty) = false := by
    rw [hu]; rfl
  rw [hc1] at h
  simp only [Bool.false_eq_true, if_false] at h
  have hs2 := Except.ok.inj h
  subst hs2
  unfold clearGraphIfPresent
  rw [hu]
  simp only [Bool.false_eq_true, if_false]
  rfl

theorem viewStateExt (a b : ViewState) (h1 : a.classes = b.classes)
    (h2 : a.graph = b.graph) : a = b := by
  cases a
  cases b
  dsimp at h1 h2
  rw [h1, h2]

theorem updateGraphRun_classes (uc : Bool) (sel : Int)
    (p s : List (Option Int)) (n : List String) (st : ViewState) :
    (updateGraphRun uc sel p s n st).classes = st.classes := by
  unfold updateGraphRun
  split <;> rfl

theorem updateGraphRun_graph_on (uc : Bool) (sel : Int)
    (p s : List (Option Int)) (n : List String) (st : ViewState)
    (h : uc = true) :
    (updateGraphRun uc sel p s n st).graph = updateGraphPlan sel p s n := by
  unfold updateGraphRun
  rw [if_pos h]

theorem clearGraphIfPresent_classes (uc : Bool) (st : ViewState) :
    (clearGraphIfPresent uc st).classes = st.classes := by
  unfold clearGraphIfPresent
  split <;> rfl

theorem clearGraphIfPresent_graph_on (uc : Bool) (st : ViewState) (h : uc = true) :
    (clearGraphIfPresent uc st).graph = [] := by
  unfold clearGraphIfPresent
  rw [if_pos h]

theorem clearGraphIfPresent_graph_off (uc : Bool) (st : ViewState) (h : uc = false) :
    (clearGraphIfPresent uc st).graph = st.graph := by
  unfold clearGraphIfPresent
  rw [h]
  rfl

theorem clearCausalHighlights_graph (st : ViewState) :
    (clearCausalHighlights st).graph = st.graph := rfl

theorem highlightCausalSentences_graph (p s : List (Option Int)) (st : ViewState) :
    (highlightCausalSentences p s st).graph = st.graph := rfl

theorem applyMatch_ok_eq (cfg : Config) (i : Nat) (st₁ st₂ s₁ s₂ : ViewState)
    (h₁ : applyMatch cfg i st₁ = .ok s₁) (h₂ : applyMatch cfg i st₂ = .ok s₂)
    (hlen : st₁.classes.length = st₂.classes.length)
    (hg : cfg.useCausalRelations = true ∨ st₁.graph = st₂.graph) : s₁ = s₂ := by
  have hcls : (highlightSentence cfg.segments i st₁).classes =
      (highlightSentence cfg.segments i st₂).classes :=
    highlightSentence_classes_of_len cfg.segments i st₁ st₂ hlen
  unfold applyMatch causalBlock at h₁ h₂
  by_cases hc1 : (cfg.useCausalRelations && !cfg.causalEdges.isEmpty) = true
  · have hu : cfg.useCausalRelations = true := (Bool.and_eq_true _ _).mp hc1 |>.1
    rw [if_pos hc1] at h₁ h₂
    by_cases hm : segMatched cfg.segments i = true
    · rw [if_pos hm] at h₁ h₂
      cases hp : getDirectPredecessors (i : Int) cfg.causalEdges with
      | error u => rw [hp] at h₁; exact Except.noConfusion h₁
      | ok preds =>
        rw [hp] at h₁ h₂
        cases hs : getDirectSuccessors (i : Int) cfg.causalEdges with
        | error u => rw [hs] at h₁; exact Except.noConfusion h₁
        | ok succs =>
          rw [hs] at h₁ h₂
          have e₁ := Except.ok.inj h₁
          have e₂ := Except.ok.inj h₂
          rw [← e₁, ← e₂]
          apply viewStateExt
          · rw [updateGraphRun_classes, updateGraphRun_classes]
            exact highlightCausalSentences_classes preds succs _ _ hcls
          · rw [updateGraphRun_graph_on _ _ _ _ _ _ hu,
                updateGraphRun_graph_on _ _ _ _ _ _ hu]
    · rw [if_neg hm] at h₁ h₂
      have e₁ := Except.ok.inj h₁
      have e₂ := Except.ok.inj h₂
      rw [← e₁, ← e₂]
      apply viewStateExt
      · rw [clearGraphIfPresent_classes, clearGraphIfPresent_classes]
        exact clearCausalHighlights_classes _ _ hcls
      · rw [clearGraphIfPresent_graph_on _ _ hu, clearGraphIfPresent_graph_on _ _ hu]
  · rw [if_neg hc1] at h₁ h₂
    have e₁ := Except.ok.inj h₁
    have e₂ := Except.ok.inj h₂
    rw [← e₁, ← e₂]
    apply viewStateExt
    · rw [clearGraphIfPresent_classes, clearGraphIfPresent_classes]
      exact clearCausalHighlights_classes _ _ hcls
    · by_cases hu : cfg.useCausalRelations = true
      · rw [clearGraphIfPresent_graph_on _ _ hu, clearGraphIfPresent_graph_on _ _ hu]
      · have hu' : cfg.useCausalRelations = false := Bool.eq_false_iff.mpr hu
        rw [clearGraphIfPresent_graph_off _ _ hu', clearGraphIfPresent_graph_off _ _ hu',
            clearCausalHighlights_graph, clearCausalHighlights_graph,
            highlightSentence_graph, highlightSentence_graph]
        cases hg with
        | inl h => rw [h] at hu'; exact Bool.noConfusion hu'
        | inr h => exact h

theorem runLoop_cons_inactive (cfg : Config) (t : ℚ) (seg : Segment)
    (rest : List Segment) (i : Nat) (found : Bool) (st : ViewState)
    (h : isActive seg t = false) :
    runLoop cfg t i (seg :: rest) (found, st) =
      runLoop cfg t (i + 1) rest (found, st) := by
  simp [runLoop, h]

theorem runLoop_cons_active_ok (cfg : Config) (t : ℚ) (seg : Segment)
    (rest : List Segment) (i : Nat) (found : Bool) (st s₁ : ViewState)
    (h : isActive seg t = true) (hap : applyMatch cfg i st = .ok s₁) :
    runLoop cfg t i (seg :: rest) (found, st) =
      runLoop cfg t (i + 1) rest (true, s₁) := by
  simp [runLoop, h, hap]

theorem runLoop_cons_active_err (cfg : Config) (t : ℚ) (seg : Segment)
    (rest : List Segment) (i : Nat) (found : Bool) (st s : ViewState)
    (h : isActive seg t = true) (hap : applyMatch cfg i st = .error s) :
    runLoop cfg t i (seg :: rest) (found, st) = .error s := by
  simp [runLoop, h, hap]

theorem runLoop_noactive (cfg : Config) (t : ℚ) :
    ∀ (rest : List Segment) (i : Nat) (found : Bool) (st : ViewState),
      (∀ seg ∈ rest, isActive seg t = false) →
      runLoop cfg t i rest (found, st) = .ok (found, st) := by
  intro rest
  induction rest with
  | nil => intro i found st _; rfl
  | cons seg r ih =>
    intro i found st h
    rw [runLoop_cons_inactive cfg t seg r i found st (h seg (List.mem_cons_self seg r))]
    exact ih (i + 1) found st fun sg hm => h sg (List.mem_cons_of_mem seg hm)

theorem runLoop_ok_char (cfg : Config) (t : ℚ) :
    ∀ (rest : List Segment) (i : Nat) (found : Bool) (st : ViewState)
      (found' : Bool) (st' : ViewState),
      runLoop cfg t i rest (found, st) = .ok (found', st') →
      (lastActiveAux t i rest none = none → found' = found ∧ st' = st) ∧
      (∀ j, lastActiveAux t i rest none = some j →
        found' = true ∧ applyMatch cfg j st = .ok st') := by
  intro rest
  induction rest with
  | nil =>
    intro i found st found' st' h
    have hinj : (found, st) = (found', st') := by
      simpa [runLoop] using h
    constructor
    · intro _
      exact ⟨(congrArg Prod.fst hinj).symm, (congrArg Prod.snd hinj).symm⟩
    · intro j hj
      exact Option.noConfusion hj
  | cons seg r ih =>
    intro i found st found' st' h
    have hlast : lastActiveAux t i (seg :: r) none =
        lastActiveAux t (i + 1) r (if isActive seg t = true then some i else none) := rfl
    cases hA : isActive seg t with
    | false =>
      rw [runLoop_cons_inactive cfg t seg r i found st hA] at h
      rw [hlast, hA]
      simp only [Bool.false_eq_true, if_false]
      exact ih (i + 1) found st found' st' h
    | true =>
      cases hap : applyMatch cfg i st with
      | error s =>
        rw [runLoop_cons_active_err cfg t seg r i found st s hA hap] at h
        exact Except.noConfusion h
      | ok s₁ =>
        rw [runLoop_cons_active_ok cfg t seg r i found st s₁ hA hap] at h
        have hstep := ih (i + 1) true s₁ found' st' h
        rw [hlast, hA]
        simp only [if_true]
        rw [lastActiveAux_acc]
        cases htail : lastActiveAux t (i + 1) r none with
        | none =>
          obtain ⟨hf, hs⟩ := hstep.1 htail
          constructor
          · intro hcon
            exact Option.noConfusion hcon
          · intro j hj
            have hji : j = i := by simpa [optOr] using hj.symm
            subst hji
            rw [← hs] at hap
            exact ⟨hf, hap⟩
        | some j' =>
          constructor
          · intro hcon
            exact Option.noConfusion hcon
          · intro j hj
            have hjj : j' = j := by simpa [optOr] using hj
            subst hjj
            obtain ⟨hf, happ₁⟩ := hstep.2 j' htail
            obtain ⟨s₂, happ₂⟩ := applyMatch_err_indep cfg j' s₁ st st' happ₁
            have hlen : s₁.classes.length = st.classes.length :=
              applyMatch_ok_length cfg i st s₁ hap
            have hgr : cfg.useCausalRelations = true ∨ s₁.graph = st.graph := by
              cases hu : cfg.useCausalRelations with
              | true => exact Or.inl rfl
              | false => exact Or.inr (applyMatch_graph_off cfg i st s₁ hu hap)
            have heq : st' = s₂ :=
              applyMatch_ok_eq cfg j' s₁ st st' s₂ happ₁ happ₂ hlen hgr
            rw [← heq] at happ₂
            exact ⟨hf, happ₂⟩

theorem runLoop_ok_any (cfg : Config) (t : ℚ) :
    ∀ (rest : List Segment) (i : Nat) (found : Bool) (st : ViewState)
      (found' : Bool) (st' : ViewState),
      runLoop cfg t i rest (found, st) = .ok (found', st') →
      ∀ (found₂ : Bool) (st₂ : ViewState),
        ∃ p, runLoop cfg t i rest (found₂, st₂) = .ok p := by
  intro rest
  induction rest with
  | nil =>
    intro i found st found' st' _ found₂ st₂
    exact ⟨(found₂, st₂), rfl⟩
  | cons seg r ih =>
    intro i found st found' st' h found₂ st₂
    cases hA : isActive seg t with
    | false =>
      rw [runLoop_cons_inactive cfg t seg r i found st hA] at h
      obtain ⟨p, hp⟩ := ih (i + 1) found st found' st' h found₂ st₂
      exact ⟨p, by rw [runLoop_cons_inactive cfg t seg r i found₂ st₂ hA]; exact hp⟩
    | true =>
      cases hap : applyMatch cfg i st with
      | error s =>
        rw [runLoop_cons_active_err cfg t seg r i found st s hA hap] at h
        exact Except.noConfusion h
      | ok s₁ =>
        rw [runLoop_cons_active_ok cfg t seg r i found st s₁ hA hap] at h
        obtain ⟨s₂, hap₂⟩ := applyMatch_err_indep cfg i st st₂ s₁ hap
        obtain ⟨p, hp⟩ := ih (i + 1) true s₁ found' st' h true s₂
        exact ⟨p, by
          rw [runLoop_cons_active_ok cfg t seg r i found₂ st₂ s₂ hA hap₂]
          exact hp⟩

theorem applyMatch_ok_of_wf (cfg : Config) (hwf : edgesWF cfg) (i : Nat)
    (st : ViewState) : ∃ s, applyMatch cfg i st = .ok s := by
  unfold applyMatch causalBlock getDirectPredecessors getDirectSuccessors
  by_cases hc1 : (cfg.useCausalRelations && !cfg.causalEdges.isEmpty) = true
  · rw [if_pos hc1]
    by_cases hm : segMatched cfg.segments i = true
    · rw [if_pos hm]
      obtain ⟨ps, hps⟩ := getPredsAux_ok (i : Int) cfg.causalEdges [] hwf
      obtain ⟨ss, hss⟩ := getSuccsAux_ok (i : Int) cfg.causalEdges [] hwf
      rw [hps, hss]
      exact ⟨_, rfl⟩
    · rw [if_neg hm]
      exact ⟨_, rfl⟩
  · rw [if_neg hc1]
    exact ⟨_, rfl⟩

theorem runLoop_ok_of_wf (cfg : Config) (t : ℚ) (hwf : edgesWF cfg) :
    ∀ (rest : List Segment) (i : Nat) (found : Bool) (st : ViewState),
      ∃ p, runLoop cfg t i rest (found, st) = .ok p := by
  intro rest
  induction rest with
  | nil => intro i found st; exact ⟨(found, st), rfl⟩
  | cons seg r ih =>
    intro i found st
    cases hA : isActive seg t with
    | false =>
      obtain ⟨p, hp⟩ := ih (i + 1) found st
      exact ⟨p, by rw [runLoop_cons_inactive cfg t seg r i found st hA]; exact hp⟩
    | true =>
      obtain ⟨s₁, hap⟩ := applyMatch_ok_of_wf cfg hwf i st
      obtain ⟨p, hp⟩ := ih (i + 1) true s₁
      exact ⟨p, by rw [runLoop_cons_active_ok cfg t seg r i found st s₁ hA hap]; exact hp⟩

theorem resetAll_classes (cfg : Config) (st : ViewState) :
    (resetAll cfg st).classes = st.classes.map fun _ => clearedSentence := by
  unfold resetAll
  rw [clearGraphIfPresent_classes]
  show (st.classes.map fun _ => clearedSentence).map _ = _
  rw [List.map_map]
  rfl

theorem resetAll_graph (cfg : Config) (st : ViewState) :
    (resetAll cfg st).graph =
      if cfg.useCausalRelations then [] else st.graph := by
  unfold resetAll
  cases hu : cfg.useCausalRelations with
  | true =>
    rw [clearGraphIfPresent_graph_on _ _ rfl]
    rw [if_pos rfl]
  | false =>
    rw [clearGraphIfPresent_graph_off _ _ rfl]
    show st.graph = _
    rw [if_neg (by simp : ¬ (false : Bool) = true)]

theorem resetAll_idem (cfg : Config) (st : ViewState) :
    resetAll cfg (resetAll cfg st) = resetAll cfg st := by
  apply viewStateExt
  · rw [resetAll_classes, resetAll_classes]
    simp [List.map_const']
  · rw [resetAll_graph, resetAll_graph]
    cases hu : cfg.useCausalRelations with
    | true => rfl
    | false =>
      simp only [Bool.false_eq_true, if_false]

theorem checkAndHighlight_char (cfg : Config) (t : ℚ) (st st' : ViewState)
    (h : checkAndHighlightCurrentSentence cfg t st = .ok st') :
    (resolveActiveSegment cfg.segments t = none → st' = resetAll cfg st) ∧
    (∀ j, resolveActiveSegment cfg.segments t = some j →
      applyMatch cfg j st = .ok st') := by
  unfold checkAndHighlightCurrentSentence at h
  cases hrl : runLoop cfg t 0 cfg.segments (false, st) with
  | error s => rw [hrl] at h; exact Except.noConfusion h
  | ok p =>
    obtain ⟨found, s⟩ := p
    rw [hrl] at h
    have hchar := runLoop_ok_char cfg t cfg.segments 0 false st found s hrl
    constructor
    · intro hnone
      obtain ⟨hf, hs⟩ := hchar.1 hnone
      rw [hf] at h
      simp only [Bool.false_eq_true, if_false] at h
      have := Except.ok.inj h
      rw [← this, hs]
    · intro j hj
      obtain ⟨hf, happ⟩ := hchar.2 j hj
      rw [hf] at h
      simp only [if_true] at h
      have := Except.ok.inj h
      rw [← this]
      exact happ

/-- C1 counterexample: with two overlapping timed segments (both `0`-`10`),
segment 0 has valid `beginTime < endTime` and `currentTime = 5` lies in
`[0, 10)`, yet the time-sync pass selects segment 1 (the last active one),
not segment 0 — so "resolveActiveSegment selects that segment for any
currentTime in [beginTime, endTime)" fails as stated. -/
theorem c1_counterexample :
    isActive segA 5 = true ∧ segA.start = some 0 ∧ segA.stop = some 10 ∧
    ((0 : ℚ) ≤ 5 ∧ (5 : ℚ) < 10) ∧
    resolveActiveSegment [segA, segB] 5 = some 1 ∧
    resolveActiveSegment [segA, segB] 5 ≠ some 0 := by
  refine ⟨rfl, rfl, rfl, ⟨by norm_num, by norm_num⟩, rfl, ?_⟩
  intro h
  have h1 : resolveActiveSegment [segA, segB] 5 = some 1 := rfl
  rw [h1] at h
  exact Nat.noConfusion (Option.some.inj h)

/-- C1 (amended): a segment is active at `currentTime` iff `beginTime` and
`endTime` are both present and `beginTime ≤ currentTime < endTime`; for a
segment with valid `beginTime < endTime`, `resolveActiveSegment` selects
that segment for any `currentTime` in `[beginTime, endTime)` provided no
later segment is also active at that time (with overlapping timing data the
last active segment in sequence order wins), and it never selects a segment
when `currentTime` equals that segment's `endTime`. -/
theorem c1_resolve_active :
    (∀ (seg : Segment) (t : ℚ),
      isActive seg t = true ↔
        ∃ b e, seg.start = some b ∧ seg.stop = some e ∧ b ≤ t ∧ t < e) ∧
    (∀ (segs : List Segment) (i : Nat) (seg : Segment) (t b e : ℚ),
      segs.get? i = some seg → seg.start = some b → seg.stop = some e →
      b ≤ t → t < e →
      (∀ k seg', i < k → segs.get? k = some seg' → isActive seg' t = false) →
      resolveActiveSegment segs t = some i) ∧
    (∀ (segs : List Segment) (t : ℚ) (i : Nat) (seg : Segment),
      resolveActiveSegment segs t = some i → segs.get? i = some seg →
      seg.stop ≠ some t) := by
  refine ⟨?_, ?_, ?_⟩
  · intro seg t
    cases hs : seg.start with
    | none => simp [isActive, hs]
    | some b =>
      cases he : seg.stop with
      | none => simp [isActive, hs, he]
      | some e => simp [isActive, hs, he]
  · intro segs i seg t b e hget hstart hstop hble hlt hafter
    apply (resolveActiveSegment_some_iff segs t i).mpr
    refine ⟨⟨seg, hget, ?_⟩, ?_⟩
    · simp [isActive, hstart, hstop]
      exact ⟨hble, hlt⟩
    · intro k hk hact
      obtain ⟨seg', hget', hA⟩ := hact
      rw [hafter k seg' hk hget'] at hA
      exact Bool.noConfusion hA
  · intro segs t i seg hres hget hstopEq
    obtain ⟨⟨seg', hget', hA⟩, -⟩ := (resolveActiveSegment_some_iff segs t i).mp hres
    rw [hget] at hget'
    have hseg : seg = seg' := Option.some.inj hget'
    rw [← hseg] at hA
    cases hsb : seg.start with
    | none => rw [isActive, hsb] at hA; exact Bool.noConfusion hA
    | some b =>
      rw [isActive, hsb, hstopEq] at hA
      simp only [Bool.and_eq_true, decide_eq_true_eq] at hA
      exact absurd hA.2 (lt_irrefl t)

/-- C1 witness: for the single matched segment timed 0-2, the amended
theorem yields selection at `currentTime = 1`. -/
theorem c1_witness : resolveActiveSegment [segM] 1 = some 0 :=
  c1_resolve_active.2.1 [segM] 0 segM 1 0 2 rfl rfl rfl (by norm_num) (by norm_num)
    (by
      intro k seg' hk hget
      cases k with
      | zero => omega
      | succ n => exact Option.noConfusion hget)

/-- C3 counterexample: with two segments whose intervals both contain
`currentTime = 5`, the time-sync pass leaves the highlight on segment 1 and
removes it from segment 0 — the resolution picks the LAST active segment in
sequence order, not the first as the claim states. -/
theorem c3_counterexample :
    isActive segA 5 = true ∧ isActive segB 5 = true ∧
    checkAndHighlightCurrentSentence cfgPlain 5 stTwo =
      .ok ⟨[⟨false, false, false, false⟩, ⟨false, true, false, false⟩], []⟩ :=
  ⟨rfl, rfl, rfl⟩

/-- C3 (amended): with overlapping timing data the resolution is still
deterministic but selects the LAST active segment in sequence order
(`resolveActiveSegment segs t = some j` iff segment `j` is active and no
later segment is), and when every edge line is well formed the resulting
highlight/graph state of the time-sync pass is exactly that of the last
match (`applyMatch` at the selected index). -/
theorem c3_last_match :
    (∀ (segs : List Segment) (t : ℚ) (j : Nat),
      resolveActiveSegment segs t = some j ↔
        (∃ seg, segs.get? j = some seg ∧ isActive seg t = true) ∧
        ∀ k seg', j < k → segs.get? k = some seg' → isActive seg' t = false) ∧
    (∀ (cfg : Config) (t : ℚ) (st : ViewState) (j : Nat),
      edgesWF cfg → resolveActiveSegment cfg.segments t = some j →
      ∃ st', checkAndHighlightCurrentSentence cfg t st = .ok st' ∧
        applyMatch cfg j st = .ok st') := by
  constructor
  · intro segs t j
    rw [resolveActiveSegment_some_iff]
    constructor
    · rintro ⟨hact, hafter⟩
      refine ⟨hact, ?_⟩
      intro k seg' hk hget'
      by_contra hcon
      rw [Bool.not_eq_false] at hcon
      exact hafter k hk ⟨seg', hget', hcon⟩
    · rintro ⟨hact, hafter⟩
      refine ⟨hact, ?_⟩
      intro k hk hact'
      obtain ⟨seg', hget', hA⟩ := hact'
      rw [hafter k seg' hk hget'] at hA
      exact Bool.noConfusion hA
  · intro cfg t st j hwf hres
    obtain ⟨p, hp⟩ := runLoop_ok_of_wf cfg t hwf cfg.segments 0 false st
    obtain ⟨found, s⟩ := p
    have hchar := runLoop_ok_char cfg t cfg.segments 0 false st found s hp
    obtain ⟨hf, happ⟩ := hchar.2 j hres
    refine ⟨s, ?_, happ⟩
    unfold checkAndHighlightCurrentSentence
    rw [hp, hf]
    rfl

/-- C3 witness: for the overlapping pair and `currentTime = 5`, the amended
theorem produces the state of the last match (segment 1). -/
theorem c3_witness :
    ∃ st', checkAndHighlightCurrentSentence cfgPlain 5 stTwo = .ok st' ∧
      applyMatch cfgPlain 1 stTwo = .ok st' :=
  c3_last_match.2 cfgPlain 5 stTwo 1 (by decide) rfl

/-- C2: for every time-update or seek-completed event at a time contained
in no segment's interval, `checkAndHighlightCurrentSentence` (the handler
installed on both the `timeupdate` and the `seeked` events) performs a full
reset regardless of the previous state: every sentence loses all four
highlight classes and the graph render is emptied.  (The hypothesis on
`st.graph` states the page invariant that with causal mode off no graph
container exists, hence nothing is displayed.) -/
theorem c2_no_active_full_reset (cfg : Config) (t : ℚ) (st : ViewState)
    (hnone : ∀ seg ∈ cfg.segments, isActive seg t = false)
    (hg : cfg.useCausalRelations = false → st.graph = []) :
    checkAndHighlightCurrentSentence cfg t st =
      .ok ⟨st.classes.map fun _ => clearedSentence, []⟩ := by
  have hrs : resetAll cfg st = ⟨st.classes.map fun _ => clearedSentence, []⟩ := by
    apply viewStateExt
    · rw [resetAll_classes]
    · rw [resetAll_graph]
      cases hu : cfg.useCausalRelations with
      | true => rfl
      | false =>
        simp only [Bool.false_eq_true, if_false]
        exact hg hu
  unfold checkAndHighlightCurrentSentence
  rw [runLoop_noactive cfg t cfg.segments 0 false st hnone]
  show Except.ok (resetAll cfg st) = _
  rw [hrs]

/-- C2 witness: at `currentTime = 99` no segment of the demo configuration
is active, and a state full of stale highlight classes and a stale graph is
fully reset. -/
theorem c2_witness :
    checkAndHighlightCurrentSentence cfgDemo 99 stMessy =
      .ok ⟨stMessy.classes.map fun _ => clearedSentence, []⟩ :=
  c2_no_active_full_reset cfgDemo 99 stMessy (by decide)
    (fun h => Bool.noConfusion h)

/-- C5: for every node id and edge list on which the scans complete,
`getDirectPredecessors` holds exactly the integers `s` with an edge
`s -> n` and `getDirectSuccessors` exactly the integers `t` with an edge
`n -> t` (membership characterization — consumers test membership), and
when no self-loop edge `n -> n` exists, `n` belongs to neither result. -/
theorem c5_pred_succ_sets (n : Int) (edges : List String)
    (ps ss : List (Option Int))
    (hps : getDirectPredecessors n edges = .ok ps)
    (hss : getDirectSuccessors n edges = .ok ss) :
    (∀ s : Int, some s ∈ ps ↔ ∃ e ∈ edges, parseEdgeLine e = .ok (some s, some n)) ∧
    (∀ tg : Int, some tg ∈ ss ↔ ∃ e ∈ edges, parseEdgeLine e = .ok (some n, some tg)) ∧
    ((¬ ∃ e ∈ edges, parseEdgeLine e = .ok (some n, some n)) →
      some n ∉ ps ∧ some n ∉ ss) := by
  have hmp := getPredsAux_mem n edges [] ps hps
  have hms := getSuccsAux_mem n edges [] ss hss
  refine ⟨?_, ?_, ?_⟩
  · intro s
    rw [hmp (some s)]
    simp
  · intro tg
    rw [hms (some tg)]
    simp
  · intro hno
    constructor
    · intro hmem
      rcases (hmp (some n)).mp hmem with h1 | h2
      · exact List.not_mem_nil _ h1
      · exact hno h2
    · intro hmem
      rcases (hms (some n)).mp hmem with h1 | h2
      · exact List.not_mem_nil _ h1
      · exact hno h2

/-- C5 witness: for the single edge `0 -> 1`, node 0 is a predecessor of
node 1 by the membership characterization. -/
theorem c5_witness : (some (0 : Int)) ∈ [some (0 : Int)] :=
  ((c5_pred_succ_sets 1 ["0 -> 1"] [some 0] [] rfl rfl).1 0).mpr
    ⟨"0 -> 1", List.mem_singleton.mpr rfl, rfl⟩

/-- C6: the claim fails on the code — an edge line lacking the `->`
separator makes `split('->')` return a single piece, `targetStr` is
`undefined`, and `targetStr.trim()` throws a `TypeError`, aborting the scan
and the running event handler instead of skipping the line: both scans
return the thrown error, and a click on the matched segment 0 leaves the
handler aborted right after the selection highlight was applied. -/
theorem c6_malformed_line_aborts :
    getDirectPredecessors 0 ["not an edge"] = .error () ∧
    getDirectSuccessors 0 ["not an edge"] = .error () ∧
    clickSentence cfgBad 0 stOne =
      .error ⟨[⟨true, false, false, false⟩], []⟩ :=
  ⟨rfl, rfl, rfl⟩

theorem takeWhile_all_append (p : Char → Bool) :
    ∀ (l r : List Char), (∀ c ∈ l, p c = true) →
      (l ++ r).takeWhile p = l ++ r.takeWhile p := by
  intro l
  induction l with
  | nil => intro r _; rfl
  | cons a l ih =>
    intro r h
    have ha : p a = true := h a (List.mem_cons_self a l)
    show ((a :: (l ++ r)).takeWhile p) = _
    simp [List.takeWhile_cons, ha,
      ih r fun c hc => h c (List.mem_cons_of_mem a hc)]

theorem dropWhile_all_append (p : Char → Bool) :
    ∀ (l r : List Char), (∀ c ∈ l, p c = true) →
      (l ++ r).dropWhile p = r.dropWhile p := by
  intro l
  induction l with
  | nil => intro r _; rfl
  | cons a l ih =>
    intro r h
    have ha : p a = true := h a (List.mem_cons_self a l)
    show ((a :: (l ++ r)).dropWhile p) = _
    simp [List.dropWhile_cons, ha,
      ih r fun c hc => h c (List.mem_cons_of_mem a hc)]

theorem takeWhile_cons_false (p : Char → Bool) (c : Char) (r : List Char)
    (h : p c = false) : (c :: r).takeWhile p = [] := by
  simp [List.takeWhile_cons, h]

theorem dropWhile_cons_false (p : Char → Bool) (c : Char) (r : List Char)
    (h : p c = false) : (c :: r).dropWhile p = c :: r := by
  simp [List.dropWhile_cons, h]

theorem dropWhile_head_false (p : Char → Bool) (r : List Char)
    (h : ∀ c, r.head? = some c → p c = false) : r.dropWhile p = r := by
  cases r with
  | nil => rfl
  | cons c rest => exact dropWhile_cons_false p c rest (h c rfl)

/-- C9 counterexample: the line `Node 3:x` lacks the claimed prefix pattern
`Node <int>: ` (there is no space after the colon), yet the code's regex
`^Node \d+:\s*` still matches and strips `Node 3:` — the stripping is not a
no-op on this line, refuting "returns every other line unchanged". -/
theorem c9_counterexample :
    specHeaderPresent "Node 3:x" = false ∧
    stripNodeHeader "Node 3:x" = "x" ∧
    stripNodeHeader "Node 3:x" ≠ "Node 3:x" := by
  refine ⟨rfl, rfl, ?_⟩
  intro h
  have hx : stripNodeHeader "Node 3:x" = "x" := rfl
  rw [hx] at h
  exact absurd h (by decide)

/-- C9 (amended): label parsing strips exactly one leading occurrence of
`Node <int>:` followed by any (possibly empty) run of whitespace — on a
line of the form `Node ` ++ digits ++ `:` ++ whitespace ++ rest it returns
rest — and it is a no-op on every line that does not start with
`Node <int>:` (digits non-empty, colon immediately after). -/
theorem c9_strip_label :
    (∀ (ds ws rest : List Char),
      ds ≠ [] → (∀ c ∈ ds, c.isDigit = true) → (∀ c ∈ ws, pySpace c = true) →
      (∀ c, rest.head? = some c → pySpace c = false) →
      stripNodeHeader ⟨"Node ".data ++ (ds ++ ':' :: (ws ++ rest))⟩ = ⟨rest⟩) ∧
    (∀ line : String,
      (¬ ∃ ds rest2 : List Char, ds ≠ [] ∧ (∀ c ∈ ds, c.isDigit = true) ∧
        line.data = "Node ".data ++ (ds ++ ':' :: rest2)) →
      stripNodeHeader line = line) := by
  constructor
  · intro ds ws rest hne hdig hws hrest
    have hpre : ("Node ".data.isPrefixOf
        ("Node ".data ++ (ds ++ ':' :: (ws ++ rest)))) = true := by
      rw [List.isPrefixOf_iff_prefix]
      exact List.prefix_append _ _
    have e1 : ("Node ".data ++ (ds ++ ':' :: (ws ++ rest))).drop 5 =
        ds ++ ':' :: (ws ++ rest) := by
      have h5 : ("Node ".data).length = 5 := rfl
      rw [← h5, List.drop_left]
    have e2 : (ds ++ ':' :: (ws ++ rest)).takeWhile Char.isDigit = ds := by
      rw [takeWhile_all_append Char.isDigit ds (':' :: (ws ++ rest)) hdig,
          takeWhile_cons_false Char.isDigit ':' (ws ++ rest) rfl,
          List.append_nil]
    have e3 : (ds ++ ':' :: (ws ++ rest)).dropWhile Char.isDigit =
        ':' :: (ws ++ rest) := by
      rw [dropWhile_all_append Char.isDigit ds (':' :: (ws ++ rest)) hdig,
          dropWhile_cons_false Char.isDigit ':' (ws ++ rest) rfl]
    have e4 : ds.isEmpty = false := by
      cases ds with
      | nil => exact absurd rfl hne
      | cons a l => rfl
    have e5 : (ws ++ rest).dropWhile pySpace = rest := by
      rw [dropWhile_all_append pySpace ws rest hws,
          dropWhile_head_false pySpace rest hrest]
    show String.mk (stripNodeHeaderAux ("Node ".data ++ (ds ++ ':' :: (ws ++ rest)))) = _
    unfold stripNodeHeaderAux
    rw [if_pos hpre]
    simp only [e1, e2, e3, e4, Bool.false_eq_true, if_false]
    simp only [if_true, e5]
  · intro line hno
    show String.mk (stripNodeHeaderAux line.data) = line
    by_cases hpre : ("Node ".data.isPrefixOf line.data) = true
    · obtain ⟨tail, htail⟩ := List.isPrefixOf_iff_prefix.mp hpre
      have hdrop : line.data.drop 5 = tail := by
        rw [← htail]
        have h5 : ("Node ".data).length = 5 := rfl
        rw [← h5, List.drop_left]
      unfold stripNodeHeaderAux
      rw [if_pos hpre]
      simp only [hdrop]
      cases hempty : (tail.takeWhile Char.isDigit).isEmpty with
      | true => rfl
      | false =>
        rw [if_neg Bool.false_ne_true]
        cases hmatch : tail.dropWhile Char.isDigit with
        | nil => rfl
        | cons c rest2 =>
          show String.mk (if c = ':' then rest2.dropWhile pySpace else line.data) = line
          by_cases hc : c = ':'
          · exfalso
            apply hno
            refine ⟨tail.takeWhile Char.isDigit, rest2, ?_, ?_, ?_⟩
            · intro hnil
              rw [hnil] at hempty
              exact Bool.noConfusion hempty
            · intro x hx
              exact List.mem_takeWhile_imp hx
            · rw [← htail]
              congr 1
              conv_lhs => rw [← List.takeWhile_append_dropWhile Char.isDigit tail]
              rw [hmatch, hc]
          · rw [if_neg hc]
    · have hpf : ("Node ".data.isPrefixOf line.data) = false := by
        cases h : ("Node ".data.isPrefixOf line.data) with
        | true => exact absurd h hpre
        | false => rfl
      unfold stripNodeHeaderAux
      rw [if_neg (by rw [hpf]; exact Bool.false_ne_true)]

/-- C9 witness: the amended stripping theorem applied to the line
`Node 12:` followed by two spaces and `hi`, and to a line lacking the
pattern. -/
theorem c9_witness :
    stripNodeHeader ⟨"Node ".data ++ (['1', '2'] ++ ':' :: ([' ', ' '] ++ "hi".data))⟩ =
      ⟨"hi".data⟩ ∧
    stripNodeHeader "plain line" = "plain line" :=
  ⟨c9_strip_label.1 ['1', '2'] [' ', ' '] "hi".data (by decide) (by decide)
      (by decide) (by decide),
   c9_strip_label.2 "plain line" (by
      rintro ⟨ds, rest2, -, -, heq⟩
      injection heq with h1 h2
      exact absurd h1 (by decide))⟩

/-- C7: the graph layout built by `updateGraph` renders a Predecessors
group iff the predecessor list is non-empty and a Successors group iff the
successor list is non-empty (no empty group is ever rendered), always
renders the Current Event group with the single selected node, places every
`↓` connector strictly between two non-empty rendered groups, and lists
the nodes of each group in exactly the order of the id list produced by the
edge scan (not numeric sort). -/
theorem c7_graph_layout (sel : Int) (preds succs : List (Option Int))
    (nodes : List String) :
    ((∃ ns, RenderItem.group "Predecessors" ns ∈ updateGraphPlan sel preds succs nodes) ↔
      preds ≠ []) ∧
    ((∃ ns, RenderItem.group "Successors" ns ∈ updateGraphPlan sel preds succs nodes) ↔
      succs ≠ []) ∧
    (RenderItem.group "Current Event" [⟨NodeKind.selected, nodeLabel nodes (some sel)⟩] ∈
      updateGraphPlan sel preds succs nodes) ∧
    (preds ≠ [] →
      RenderItem.group "Predecessors"
          (preds.map fun id => ⟨NodeKind.predecessor, nodeLabel nodes id⟩) ∈
        updateGraphPlan sel preds succs nodes) ∧
    (succs ≠ [] →
      RenderItem.group "Successors"
          (succs.map fun id => ⟨NodeKind.successor, nodeLabel nodes id⟩) ∈
        updateGraphPlan sel preds succs nodes) ∧
    (∀ k, (updateGraphPlan sel preds succs nodes).get? k = some RenderItem.arrow →
      (∃ t1 ns1, (updateGraphPlan sel preds succs nodes).get? (k - 1) =
        some (RenderItem.group t1 ns1) ∧ ns1 ≠ []) ∧
      (∃ t2 ns2, (updateGraphPlan sel preds succs nodes).get? (k + 1) =
        some (RenderItem.group t2 ns2) ∧ ns2 ≠ [])) := by
  cases preds with
  | nil =>
    cases succs with
    | nil =>
      refine ⟨?_, ?_, ?_, ?_, ?_, ?_⟩
      · simp [updateGraphPlan]
      · simp [updateGraphPlan]
      · simp [updateGraphPlan]
      · simp
      · simp
      · intro k hk
        cases k with
        | zero => simp [updateGraphPlan] at hk
        | succ k' =>
          cases k' with
          | zero => simp [updateGraphPlan] at hk
          | succ k'' => simp [updateGraphPlan] at hk
    | cons q qs =>
      refine ⟨?_, ?_, ?_, ?_, ?_, ?_⟩
      · simp [updateGraphPlan]
      · simp [updateGraphPlan]
      · simp [updateGraphPlan]
      · simp
      · intro _
        simp [updateGraphPlan]
      · intro k hk
        cases k with
        | zero => simp [updateGraphPlan] at hk
        | succ k' =>
          cases k' with
          | zero =>
            refine ⟨⟨"Current Event", [⟨NodeKind.selected, nodeLabel nodes (some sel)⟩], ?_, ?_⟩,
                    ⟨"Successors", (q :: qs).map fun id => ⟨NodeKind.successor, nodeLabel nodes id⟩, ?_, ?_⟩⟩
            · simp [updateGraphPlan]
            · simp
            · simp [updateGraphPlan]
            · simp
          | succ k'' =>
            cases k'' with
            | zero => simp [updateGraphPlan] at hk
            | succ k3 => simp [updateGraphPlan] at hk
  | cons p ps =>
    cases succs with
    | nil =>
      refine ⟨?_, ?_, ?_, ?_, ?_, ?_⟩
      · simp [updateGraphPlan]
      · simp [updateGraphPlan]
      · simp [updateGraphPlan]
      · intro _
        simp [updateGraphPlan]
      · simp
      · intro k hk
        cases k with
        | zero => simp [updateGraphPlan] at hk
        | succ k' =>
          cases k' with
          | zero =>
            refine ⟨⟨"Predecessors", (p :: ps).map fun id => ⟨NodeKind.predecessor, nodeLabel nodes id⟩, ?_, ?_⟩,
                    ⟨"Current Event", [⟨NodeKind.selected, nodeLabel nodes (some sel)⟩], ?_, ?_⟩⟩
            · simp [updateGraphPlan]
            · simp
            · simp [updateGraphPlan]
            · simp
          | succ k'' =>
            cases k'' with
            | zero => simp [updateGraphPlan] at hk
            | succ k3 => simp [updateGraphPlan] at hk
    | cons q qs =>
      refine ⟨?_, ?_, ?_, ?_, ?_, ?_⟩
      · simp [updateGraphPlan]
      · simp [updateGraphPlan]
      · simp [updateGraphPlan]
      · intro _
        simp [updateGraphPlan]
      · intro _
        simp [updateGraphPlan]
      · intro k hk
        cases k with
        | zero => simp [updateGraphPlan] at hk
        | succ k' =>
          cases k' with
          | zero =>
            refine ⟨⟨"Predecessors", (p :: ps).map fun id => ⟨NodeKind.predecessor, nodeLabel nodes id⟩, ?_, ?_⟩,
                    ⟨"Current Event", [⟨NodeKind.selected, nodeLabel nodes (some sel)⟩], ?_, ?_⟩⟩
            · simp [updateGraphPlan]
            · simp
            · simp [updateGraphPlan]
            · simp
          | succ k'' =>
            cases k'' with
            | zero => simp [updateGraphPlan] at hk
            | succ k3 =>
              cases k3 with
              | zero =>
                refine ⟨⟨"Current Event", [⟨NodeKind.selected, nodeLabel nodes (some sel)⟩], ?_, ?_⟩,
                        ⟨"Successors", (q :: qs).map fun id => ⟨NodeKind.successor, nodeLabel nodes id⟩, ?_, ?_⟩⟩
                · simp [updateGraphPlan]
                · simp
                · simp [updateGraphPlan]
                · simp
              | succ k4 =>
                cases k4 with
                | zero => simp [updateGraphPlan] at hk
                | succ k5 => simp [updateGraphPlan] at hk

/-- C7 witness: for predecessor list `[0]` and empty successor list, the
layout contains the Predecessors group with the single labelled node, in
scan order. -/
theorem c7_witness :
    RenderItem.group "Predecessors"
        ([some (0 : Int)].map fun id => ⟨NodeKind.predecessor, nodeLabel ["a", "b"] id⟩) ∈
      updateGraphPlan 1 [some 0] [] ["a", "b"] :=
  (c7_graph_layout 1 [some 0] [] ["a", "b"]).2.2.2.1 (by simp)

theorem get?_some_lt {l : List SentenceState} {j : Nat} {s : SentenceState}
    (h : l.get? j = some s) : j < l.length :=
  (List.get?_eq_some.mp h).choose

theorem get?_map_const :
    ∀ (l : List SentenceState) (j : Nat), j < l.length →
      (l.map fun _ => clearedSentence).get? j = some clearedSentence := by
  intro l
  induction l with
  | nil => intro j h; exact absurd h (Nat.not_lt_zero j)
  | cons a r ih =>
    intro j h
    cases j with
    | zero => rfl
    | succ j' =>
      show (r.map fun _ => clearedSentence).get? j' = _
      exact ih j' (Nat.succ_lt_succ_iff.mp (by simpa using h))

theorem highlightSentence_get?_ne (segs : List Segment) (i : Nat)
    (st : ViewState) (j : Nat) (hj : j < st.classes.length) (hne : j ≠ i) :
    (highlightSentence segs i st).classes.get? j = some clearedSentence := by
  show (mapIdxAux (selMark segs i) 0 (st.classes.map fun _ => clearedSentence)).get? j = _
  rw [mapIdxAux_get?, get?_map_const st.classes j hj]
  simp [selMark, Nat.zero_add, hne]

theorem highlightSentence_get?_self (segs : List Segment) (i : Nat)
    (st : ViewState) (hi : i < st.classes.length) :
    (highlightSentence segs i st).classes.get? i =
      some (if segMatched segs i then { clearedSentence with highlight := true }
            else { clearedSentence with unmatchedHighlight := true }) := by
  show (mapIdxAux (selMark segs i) 0 (st.classes.map fun _ => clearedSentence)).get? i = _
  rw [mapIdxAux_get?, get?_map_const st.classes i hi]
  simp [selMark, Nat.zero_add]

theorem highlightCausalSentences_get? (ps ss : List (Option Int))
    (st : ViewState) (j : Nat) (s : SentenceState)
    (h : st.classes.get? j = some s) :
    (highlightCausalSentences ps ss st).classes.get? j =
      some (causalMark ps ss j s) := by
  show (mapIdxAux (causalMark ps ss) 0 st.classes).get? j = _
  rw [mapIdxAux_get?, h]
  rw [Nat.zero_add]
  rfl

theorem clearCausal_mem (st : ViewState) :
    ∀ s ∈ (clearCausalHighlights st).classes,
      s.predecessorHighlight = false ∧ s.successorHighlight = false := by
  intro s hs
  obtain ⟨a, -, rfl⟩ := List.mem_map.mp hs
  exact ⟨rfl, rfl⟩

theorem updateGraphPlan_ne_nil (sel : Int) (p s : List (Option Int))
    (n : List String) : updateGraphPlan sel p s n ≠ [] := by
  intro h
  unfold updateGraphPlan at h
  cases p <;> cases s <;> simp at h

theorem applyMatch_not_causal (cfg : Config) (i : Nat) (st : ViewState)
    (h : (cfg.useCausalRelations && !cfg.causalEdges.isEmpty) = false ∨
      segMatched cfg.segments i = false) :
    applyMatch cfg i st = .ok (clearGraphIfPresent cfg.useCausalRelations
      (clearCausalHighlights (highlightSentence cfg.segments i st))) := by
  unfold applyMatch causalBlock
  by_cases h1 : (cfg.useCausalRelations && !cfg.causalEdges.isEmpty) = true
  · rw [if_pos h1]
    cases h with
    | inl h0 => rw [h0] at h1; exact Bool.noConfusion h1
    | inr h2 =>
      rw [if_neg (by rw [h2]; exact Bool.false_ne_true)]
  · rw [if_neg h1]

theorem applyMatch_causal (cfg : Config) (i : Nat) (st : ViewState)
    (ps ss : List (Option Int))
    (hcond : (cfg.useCausalRelations && !cfg.causalEdges.isEmpty) = true)
    (hm : segMatched cfg.segments i = true)
    (hps : getDirectPredecessors (i : Int) cfg.causalEdges = .ok ps)
    (hss : getDirectSuccessors (i : Int) cfg.causalEdges = .ok ss) :
    applyMatch cfg i st = .ok (updateGraphRun cfg.useCausalRelations i ps ss
      cfg.nodes (highlightCausalSentences ps ss (highlightSentence cfg.segments i st))) := by
  unfold applyMatch causalBlock
  rw [if_pos hcond, if_pos hm, hps, hss]

/-- C4: for an active (selected) segment, causal propagation — graph drawn
and predecessor/successor marks from the edge scans — happens iff causal
mode is on AND the segment's matched flag is `yes` AND the edge list is
non-empty; in every other case the causal classes are absent from every
sentence and the graph is cleared.  In the propagation case the rendered
graph is exactly the layout of the scanned id lists and each other
sentence's causal class is determined by membership in them. -/
theorem c4_causal_propagation (cfg : Config) (i : Nat) (st : ViewState)
    (hwf : edgesWF cfg)
    (hlen : st.classes.length = cfg.segments.length)
    (hi : i < cfg.segments.length)
    (hg : cfg.useCausalRelations = false → st.graph = []) :
    ∃ st', applyMatch cfg i st = .ok st' ∧
      (st'.graph ≠ [] ↔
        cfg.useCausalRelations = true ∧ cfg.causalEdges ≠ [] ∧
          segMatched cfg.segments i = true) ∧
      (¬ (cfg.useCausalRelations = true ∧ cfg.causalEdges ≠ [] ∧
          segMatched cfg.segments i = true) →
        st'.graph = [] ∧
        ∀ s ∈ st'.classes, s.predecessorHighlight = false ∧
          s.successorHighlight = false) ∧
      (∀ ps ss,
        cfg.useCausalRelations = true → cfg.causalEdges ≠ [] →
        segMatched cfg.segments i = true →
        getDirectPredecessors (i : Int) cfg.causalEdges = .ok ps →
        getDirectSuccessors (i : Int) cfg.causalEdges = .ok ss →
        st'.graph = updateGraphPlan i ps ss cfg.nodes ∧
        ∀ j s, j ≠ i → st'.classes.get? j = some s →
          (s.predecessorHighlight = true ↔ ps.contains (some (j : Int)) = true) ∧
          (s.successorHighlight = true ↔
            ps.contains (some (j : Int)) = false ∧
              ss.contains (some (j : Int)) = true)) := by
  by_cases hC : cfg.useCausalRelations = true ∧ cfg.causalEdges ≠ [] ∧
      segMatched cfg.segments i = true
  · obtain ⟨hu, hne, hm⟩ := hC
    have hcond : (cfg.useCausalRelations && !cfg.causalEdges.isEmpty) = true := by
      cases hEdges : cfg.causalEdges with
      | nil => exact absurd hEdges hne
      | cons a l => rw [hu]; rfl
    obtain ⟨ps, hps⟩ := getPredsAux_ok (i : Int) cfg.causalEdges [] hwf
    obtain ⟨ss, hss⟩ := getSuccsAux_ok (i : Int) cfg.causalEdges [] hwf
    refine ⟨_, applyMatch_causal cfg i st ps ss hcond hm hps hss, ?_, ?_, ?_⟩
    · rw [updateGraphRun_graph_on _ _ _ _ _ _ hu]
      exact iff_of_true (updateGraphPlan_ne_nil _ _ _ _) ⟨hu, hne, hm⟩
    · intro hnc
      exact absurd ⟨hu, hne, hm⟩ hnc
    · intro ps' ss' _ _ _ hps' hss'
      have hpe : ps = ps' := Except.ok.inj (hps.symm.trans hps')
      have hse : ss = ss' := Except.ok.inj (hss.symm.trans hss')
      rw [← hpe, ← hse]
      constructor
      · exact updateGraphRun_graph_on _ _ _ _ _ _ hu
      · intro j s hne' hget
        rw [updateGraphRun_classes] at hget
        have hlhcs : ((highlightCausalSentences ps ss
            (highlightSentence cfg.segments i st)).classes).length =
            st.classes.length := by
          show (mapIdxAux _ 0 _).length = _
          rw [mapIdxAux_length]
          exact highlightSentence_length cfg.segments i st
        have hjlt : j < st.classes.length := by
          have := get?_some_lt hget
          omega
        have hcl : (highlightSentence cfg.segments i st).classes.get? j =
            some clearedSentence :=
          highlightSentence_get?_ne cfg.segments i st j hjlt hne'
        rw [highlightCausalSentences_get? ps ss _ j clearedSentence hcl] at hget
        have hs : s = causalMark ps ss j clearedSentence :=
          (Option.some.inj hget).symm
        subst hs
        cases hp : ps.contains (some (j : Int)) with
        | true =>
          have hp2 : some (j : Int) ∈ ps := by simpa using hp
          refine ⟨?_, ?_⟩ <;> simp [causalMark, clearedSentence, hp, hp2]
        | false =>
          have hp2 : some (j : Int) ∉ ps := by simpa using hp
          cases hq : ss.contains (some (j : Int)) with
          | true =>
            have hq2 : some (j : Int) ∈ ss := by simpa using hq
            refine ⟨?_, ?_⟩ <;> simp [causalMark, clearedSentence, hp, hq, hp2, hq2]
          | false =>
            have hq2 : some (j : Int) ∉ ss := by simpa using hq
            refine ⟨?_, ?_⟩ <;> simp [causalMark, clearedSentence, hp, hq, hp2, hq2]
  · have hdis : (cfg.useCausalRelations && !cfg.causalEdges.isEmpty) = false ∨
        segMatched cfg.segments i = false := by
      by_cases h1 : (cfg.useCausalRelations && !cfg.causalEdges.isEmpty) = true
      · right
        cases hm : segMatched cfg.segments i with
        | true =>
          exfalso
          apply hC
          have hu : cfg.useCausalRelations = true := ((Bool.and_eq_true _ _).mp h1).1
          have hne : cfg.causalEdges ≠ [] := by
            have h2 : (!cfg.causalEdges.isEmpty) = true := ((Bool.and_eq_true _ _).mp h1).2
            intro hnil
            rw [hnil] at h2
            exact Bool.noConfusion h2
          exact ⟨hu, hne, hm⟩
        | false => rfl
      · left
        exact Bool.eq_false_iff.mpr h1
    have hgr : (clearGraphIfPresent cfg.useCausalRelations
        (clearCausalHighlights (highlightSentence cfg.segments i st))).graph = [] := by
      cases hu : cfg.useCausalRelations with
      | true => exact clearGraphIfPresent_graph_on _ _ rfl
      | false =>
        rw [clearGraphIfPresent_graph_off _ _ rfl, clearCausalHighlights_graph,
            highlightSentence_graph]
        exact hg hu
    refine ⟨_, applyMatch_not_causal cfg i st hdis, ?_, ?_, ?_⟩
    · exact iff_of_false (fun hne' => hne' hgr) hC
    · intro _
      refine ⟨hgr, ?_⟩
      have hcls : (clearGraphIfPresent cfg.useCausalRelations
          (clearCausalHighlights (highlightSentence cfg.segments i st))).classes =
          (clearCausalHighlights (highlightSentence cfg.segments i st)).classes :=
        clearGraphIfPresent_classes _ _
      rw [hcls]
      exact clearCausal_mem _
    · intro ps ss hu hne hm _ _
      exact (hC ⟨hu, hne, hm⟩).elim

/-- C4 witness: clicking/selecting the unmatched segment 1 of the demo
configuration (causal mode on, edges non-empty) yields no causal classes
and a cleared graph. -/
theorem c4_witness :
    ∃ st', applyMatch cfgDemo 1 stThree = .ok st' ∧ st'.graph = [] ∧
      ∀ s ∈ st'.classes, s.predecessorHighlight = false ∧
        s.successorHighlight = false := by
  obtain ⟨st', hok, -, hnc, -⟩ :=
    c4_causal_propagation cfgDemo 1 stThree (by decide) (by decide) (by decide)
      (fun h => Bool.noConfusion h)
  obtain ⟨hgr, hcls⟩ := hnc (by
    rintro ⟨-, -, hm⟩
    exact Bool.noConfusion hm)
  exact ⟨st', hok, hgr, hcls⟩

theorem highlightSentence_selected (segs : List Segment) (i : Nat)
    (st : ViewState) :
    ∀ j s, (highlightSentence segs i st).classes.get? j = some s →
      (s.highlight || s.unmatchedHighlight) = true → j = i := by
  intro j s hget hsel
  by_cases hji : j = i
  · exact hji
  · exfalso
    have hjl : j < st.classes.length := by
      have h1 := get?_some_lt hget
      have h2 := highlightSentence_length segs i st
      omega
    rw [highlightSentence_get?_ne segs i st j hjl hji] at hget
    have hs : s = clearedSentence := (Option.some.inj hget).symm
    rw [hs] at hsel
    exact Bool.noConfusion hsel

theorem causalMark_highlight (ps ss : List (Option Int)) (j : Nat)
    (s : SentenceState) :
    (causalMark ps ss j s).highlight = s.highlight ∧
    (causalMark ps ss j s).unmatchedHighlight = s.unmatchedHighlight := by
  unfold causalMark
  split_ifs <;> exact ⟨rfl, rfl⟩

theorem hcs_selected (ps ss : List (Option Int)) (st : ViewState) (j : Nat)
    (s : SentenceState)
    (h : (highlightCausalSentences ps ss st).classes.get? j = some s) :
    ∃ s0, st.classes.get? j = some s0 ∧ s.highlight = s0.highlight ∧
      s.unmatchedHighlight = s0.unmatchedHighlight := by
  have h2 : (mapIdxAux (causalMark ps ss) 0 st.classes).get? j = some s := h
  rw [mapIdxAux_get?] at h2
  cases hsg : st.classes.get? j with
  | none => rw [hsg] at h2; exact Option.noConfusion h2
  | some s0 =>
    rw [hsg] at h2
    have hs : s = causalMark ps ss (0 + j) s0 := (Option.some.inj h2).symm
    obtain ⟨e1, e2⟩ := causalMark_highlight ps ss (0 + j) s0
    exact ⟨s0, rfl, by rw [hs]; exact e1, by rw [hs]; exact e2⟩

theorem clearCausal_selected (st : ViewState) (j : Nat) (s : SentenceState)
    (h : (clearCausalHighlights st).classes.get? j = some s) :
    ∃ s0, st.classes.get? j = some s0 ∧ s.highlight = s0.highlight ∧
      s.unmatchedHighlight = s0.unmatchedHighlight := by
  have h2 : (st.classes.map fun s =>
      { s with predecessorHighlight := false, successorHighlight := false }).get? j =
      some s := h
  rw [List.get?_map] at h2
  cases hsg : st.classes.get? j with
  | none => rw [hsg] at h2; exact Option.noConfusion h2
  | some s0 =>
    rw [hsg] at h2
    have hs : s = { s0 with predecessorHighlight := false, successorHighlight := false } :=
      (Option.some.inj h2).symm
    exact ⟨s0, rfl, by rw [hs], by rw [hs]⟩

theorem applyMatch_atMostOne (cfg : Config) (i : Nat) (st : ViewState) :
    ∀ s', (applyMatch cfg i st = .ok s' ∨ applyMatch cfg i st = .error s') →
      atMostOneSelected s' := by
  have hsel : ∀ j k sj sk,
      (highlightSentence cfg.segments i st).classes.get? j = some sj →
      (highlightSentence cfg.segments i st).classes.get? k = some sk →
      (sj.highlight || sj.unmatchedHighlight) = true →
      (sk.highlight || sk.unmatchedHighlight) = true → j = k := by
    intro j k sj sk hj hk hsj hsk
    rw [highlightSentence_selected cfg.segments i st j sj hj hsj,
        highlightSentence_selected cfg.segments i st k sk hk hsk]
  intro s' hs'
  unfold applyMatch causalBlock at hs'
  by_cases hc1 : (cfg.useCausalRelations && !cfg.causalEdges.isEmpty) = true
  · rw [if_pos hc1] at hs'
    by_cases hm : segMatched cfg.segments i = true
    · rw [if_pos hm] at hs'
      cases hp : getDirectPredecessors (i : Int) cfg.causalEdges with
      | error u =>
        rw [hp] at hs'
        have he : s' = highlightSentence cfg.segments i st := by
          cases hs' with
          | inl h => exact Except.noConfusion h
          | inr h => exact (Except.error.inj h).symm
        rw [he]
        exact hsel
      | ok preds =>
        rw [hp] at hs'
        cases hq : getDirectSuccessors (i : Int) cfg.causalEdges with
        | error u =>
          rw [hq] at hs'
          have he : s' = highlightSentence cfg.segments i st := by
            cases hs' with
            | inl h => exact Except.noConfusion h
            | inr h => exact (Except.error.inj h).symm
          rw [he]
          exact hsel
        | ok succs =>
          rw [hq] at hs'
          have he : s' = updateGraphRun cfg.useCausalRelations i preds succs
              cfg.nodes (highlightCausalSentences preds succs
                (highlightSentence cfg.segments i st)) := by
            cases hs' with
            | inl h => exact (Except.ok.inj h).symm
            | inr h => exact Except.noConfusion h
          rw [he]
          intro j k sj sk hj hk hsj hsk
          rw [updateGraphRun_classes] at hj hk
          obtain ⟨sj0, hj0, ej1, ej2⟩ :=
            hcs_selected preds succs _ j sj hj
          obtain ⟨sk0, hk0, ek1, ek2⟩ :=
            hcs_selected preds succs _ k sk hk
          rw [ej1, ej2] at hsj
          rw [ek1, ek2] at hsk
          exact hsel j k sj0 sk0 hj0 hk0 hsj hsk
    · rw [if_neg hm] at hs'
      have he : s' = clearGraphIfPresent cfg.useCausalRelations
          (clearCausalHighlights (highlightSentence cfg.segments i st)) := by
        cases hs' with
        | inl h => exact (Except.ok.inj h).symm
        | inr h => exact Except.noConfusion h
      rw [he]
      intro j k sj sk hj hk hsj hsk
      rw [clearGraphIfPresent_classes] at hj hk
      obtain ⟨sj0, hj0, ej1, ej2⟩ := clearCausal_selected _ j sj hj
      obtain ⟨sk0, hk0, ek1, ek2⟩ := clearCausal_selected _ k sk hk
      rw [ej1, ej2] at hsj
      rw [ek1, ek2] at hsk
      exact hsel j k sj0 sk0 hj0 hk0 hsj hsk
  · rw [if_neg hc1] at hs'
    have he : s' = clearGraphIfPresent cfg.useCausalRelations
        (clearCausalHighlights (highlightSentence cfg.segments i st)) := by
      cases hs' with
      | inl h => exact (Except.ok.inj h).symm
      | inr h => exact Except.noConfusion h
    rw [he]
    intro j k sj sk hj hk hsj hsk
    rw [clearGraphIfPresent_classes] at hj hk
    obtain ⟨sj0, hj0, ej1, ej2⟩ := clearCausal_selected _ j sj hj
    obtain ⟨sk0, hk0, ek1, ek2⟩ := clearCausal_selected _ k sk hk
    rw [ej1, ej2] at hsj
    rw [ek1, ek2] at hsk
    exact hsel j k sj0 sk0 hj0 hk0 hsj hsk

theorem resetAll_noSelected (cfg : Config) (st : ViewState) :
    ∀ j s, (resetAll cfg st).classes.get? j = some s →
      (s.highlight || s.unmatchedHighlight) = false := by
  intro j s hget
  rw [resetAll_classes, List.get?_map] at hget
  cases hsg : st.classes.get? j with
  | none => rw [hsg] at hget; exact Option.noConfusion hget
  | some s0 =>
    rw [hsg] at hget
    have hs : s = clearedSentence := (Option.some.inj hget).symm
    rw [hs]
    rfl

theorem runLoop_selected (cfg : Config) (t : ℚ) :
    ∀ (rest : List Segment) (i : Nat) (found : Bool) (st : ViewState),
      ((∀ found' st', runLoop cfg t i rest (found, st) = .ok (found', st') →
        (found = true → atMostOneSelected st) →
        (found' = true → atMostOneSelected st')) ∧
      (∀ s', runLoop cfg t i rest (found, st) = .error s' →
        atMostOneSelected s')) := by
  intro rest
  induction rest with
  | nil =>
    intro i found st
    constructor
    · intro found' st' h hst hf
      have hinj : (found, st) = (found', st') := by simpa [runLoop] using h
      have h1 : found = found' := congrArg Prod.fst hinj
      have h2 : st = st' := congrArg Prod.snd hinj
      rw [← h2]
      exact hst (h1.trans hf)
    · intro s' h
      exact Except.noConfusion h
  | cons seg r ih =>
    intro i found st
    cases hA : isActive seg t with
    | false =>
      constructor
      · intro found' st' h hst hf
        rw [runLoop_cons_inactive cfg t seg r i found st hA] at h
        exact (ih (i + 1) found st).1 found' st' h hst hf
      · intro s' h
        rw [runLoop_cons_inactive cfg t seg r i found st hA] at h
        exact (ih (i + 1) found st).2 s' h
    | true =>
      cases hap : applyMatch cfg i st with
      | error s =>
        constructor
        · intro found' st' h hst hf
          rw [runLoop_cons_active_err cfg t seg r i found st s hA hap] at h
          exact Except.noConfusion h
        · intro s' h
          rw [runLoop_cons_active_err cfg t seg r i found st s hA hap] at h
          have : s = s' := Except.error.inj h
          rw [← this]
          exact applyMatch_atMostOne cfg i st s (Or.inr hap)
      | ok s₁ =>
        have hs₁ : atMostOneSelected s₁ :=
          applyMatch_atMostOne cfg i st s₁ (Or.inl hap)
        constructor
        · intro found' st' h hst hf
          rw [runLoop_cons_active_ok cfg t seg r i found st s₁ hA hap] at h
          exact (ih (i + 1) true s₁).1 found' st' h (fun _ => hs₁) hf
        · intro s' h
          rw [runLoop_cons_active_ok cfg t seg r i found st s₁ hA hap] at h
          exact (ih (i + 1) true s₁).2 s' h

/-- C10: after every click, time-update, or seek-completed event — whether
the handler ran to completion or was aborted by a thrown scan error — at
most one sentence carries a selection class (`highlight` or
`unmatched-highlight`): every selection pass first strips all four classes
from every sentence before marking the new selection. -/
theorem c10_single_selection :
    (∀ (cfg : Config) (i : Nat) (st : ViewState),
      atMostOneSelected (clickState (clickSentence cfg i st))) ∧
    (∀ (cfg : Config) (t : ℚ) (st : ViewState),
      atMostOneSelected (stateAfter (checkAndHighlightCurrentSentence cfg t st))) := by
  constructor
  · intro cfg i st
    unfold clickSentence
    cases hap : applyMatch cfg i st with
    | error s =>
      show atMostOneSelected (clickState (Except.error s))
      exact applyMatch_atMostOne cfg i st s (Or.inr hap)
    | ok s =>
      show atMostOneSelected (clickState (Except.ok (s, _)))
      exact applyMatch_atMostOne cfg i st s (Or.inl hap)
  · intro cfg t st
    unfold checkAndHighlightCurrentSentence
    cases hrl : runLoop cfg t 0 cfg.segments (false, st) with
    | error s =>
      show atMostOneSelected (stateAfter (Except.error s))
      exact (runLoop_selected cfg t cfg.segments 0 false st).2 s hrl
    | ok p =>
      obtain ⟨found, s⟩ := p
      cases found with
      | true =>
        show atMostOneSelected s
        exact (runLoop_selected cfg t cfg.segments 0 false st).1 true s hrl
          (fun h => Bool.noConfusion h) rfl
      | false =>
        show atMostOneSelected (resetAll cfg s)
        intro j k sj sk hj hk hsj hsk
        rw [resetAll_noSelected cfg s j sj hj] at hsj
        exact Bool.noConfusion hsj

/-- C10 witness: at `currentTime = 1` the demo configuration selects
segment 0; instantiating the invariant at the concrete resulting state
confirms a single selected index. -/
theorem c10_witness : (0 : Nat) = 0 :=
  c10_single_selection.2 cfgDemo 1 stThree 0 0
    ⟨true, false, false, false⟩ ⟨true, false, false, false⟩ rfl rfl rfl rfl

/-- C8: the highlight recomputation is idempotent — whenever a time-update
(or seek-completed) pass completes and yields a state, running the same
pass again on that state with the same configuration and time yields the
very same state: repeated ticks with an unchanged active segment do not
change the visual state. -/
theorem c8_idempotent (cfg : Config) (t : ℚ) (st st' : ViewState)
    (h : checkAndHighlightCurrentSentence cfg t st = .ok st') :
    checkAndHighlightCurrentSentence cfg t st' = .ok st' := by
  unfold checkAndHighlightCurrentSentence at h
  cases hrl : runLoop cfg t 0 cfg.segments (false, st) with
  | error s => rw [hrl] at h; exact Except.noConfusion h
  | ok p =>
    obtain ⟨found, s⟩ := p
    rw [hrl] at h
    have hchar := runLoop_ok_char cfg t cfg.segments 0 false st found s hrl
    cases hres : lastActiveAux t 0 cfg.segments none with
    | none =>
      obtain ⟨hf, hs⟩ := hchar.1 hres
      rw [hf] at h
      simp only [Bool.false_eq_true, if_false] at h
      have hst' : st' = resetAll cfg s := (Except.ok.inj h).symm
      rw [hs] at hst'
      have hnone : ∀ seg ∈ cfg.segments, isActive seg t = false := by
        intro seg hm
        obtain ⟨m, hm2⟩ := List.mem_iff_get?.mp hm
        exact (lastActiveAux_none_iff t cfg.segments 0).mp hres m seg hm2
      unfold checkAndHighlightCurrentSentence
      rw [runLoop_noactive cfg t cfg.segments 0 false st' hnone]
      show Except.ok (resetAll cfg st') = _
      rw [hst', resetAll_idem]
    | some j =>
      obtain ⟨hf, happ⟩ := hchar.2 j hres
      rw [hf] at h
      simp only [if_true] at h
      have hse : s = st' := Except.ok.inj h
      rw [hse] at happ
      obtain ⟨p₂, hp₂⟩ := runLoop_ok_any cfg t cfg.segments 0 false st found s hrl false st'
      obtain ⟨found₂, s₂⟩ := p₂
      have hchar₂ := runLoop_ok_char cfg t cfg.segments 0 false st' found₂ s₂ hp₂
      obtain ⟨hf₂, happ₂⟩ := hchar₂.2 j hres
      have hlen2 : st'.classes.length = st.classes.length :=
        applyMatch_ok_length cfg j st st' happ
      have hgr2 : cfg.useCausalRelations = true ∨ st'.graph = st.graph := by
        cases hu : cfg.useCausalRelations with
        | true => exact Or.inl rfl
        | false => exact Or.inr (applyMatch_graph_off cfg j st st' hu happ)
      have hs₂ : s₂ = st' :=
        applyMatch_ok_eq cfg j st' st s₂ st' happ₂ happ hlen2 hgr2
      unfold checkAndHighlightCurrentSentence
      rw [hp₂, hf₂, hs₂]
      rfl

/-- C8 witness: a time-update at `currentTime = 1` on the demo
configuration followed by a second identical time-update leaves the state
unchanged. -/
theorem c8_witness :
    ∃ st', checkAndHighlightCurrentSentence cfgDemo 1 stThree = .ok st' ∧
      checkAndHighlightCurrentSentence cfgDemo 1 st' = .ok st' := by
  cases hrun : checkAndHighlightCurrentSentence cfgDemo 1 stThree with
  | error s => exact Except.noConfusion (hrun.symm.trans (by rfl))
  | ok st' => exact ⟨st', rfl, c8_idempotent cfgDemo 1 stThree st' hrun⟩
